import Mathlib

/-!
Verification of the TelegramAutoClone orchestration engine against its
natural-language specification.  The Python sources under `app/` are shallowly
embedded as executable Lean definitions: SQL tables become lists of row
structures, the SQLite write operations become pure state transformers, and the
upstream Telegram client is modelled by explicit outcome environments.  Claims
from the specification are then proved or refuted against these definitions.
-/

set_option maxRecDepth 10000

namespace TgClone

/-! ## Recovery queue (app/db.py, recovery_queue table)

Embedding of the `recovery_queue` table and the `Database` methods that touch
it.  A row is a `RecoveryJob`; the table is a list of rows ordered by the
autoincrement primary key (rows are only ever appended, with `nextId` playing
the role of the SQLite autoincrement counter).  Timestamp columns are omitted:
no queue operation reads them back.
-/

/-- Job status column; the code only ever writes these six values. -/
inductive JobStatus
  | pending
  | running
  | stopping
  | stopped
  | done
  | failed
deriving DecidableEq, Repr

/-- One row of `recovery_queue`. -/
structure RecoveryJob where
  id : Nat
  source_group_id : Nat
  topic_id : Nat
  old_channel_chat_id : Int
  new_channel_chat_id : Option Int := none
  reason : String := ""
  status : JobStatus
  retry_count : Int := 0
  last_cloned_message_id : Nat := 0
  last_error : Option String := none
deriving DecidableEq, Repr

/-- The queue table plus the autoincrement counter. -/
structure QueueState where
  jobs : List RecoveryJob := []
  nextId : Nat := 1
deriving DecidableEq, Repr

/-- Python string slicing `s[:n]` over code points (used for error truncation). -/
def pySlice (s : String) (n : Nat) : String :=
  String.mk (s.data.take n)

/-- Row selected by `ORDER BY id DESC LIMIT 1` among rows matching `p`. -/
def newestMatch (p : RecoveryJob → Bool) : List RecoveryJob → Option RecoveryJob
  | [] => none
  | j :: rest =>
    match newestMatch p rest with
    | none => if p j = true then some j else none
    | some k => if p j = true ∧ k.id < j.id then some j else some k

/-- Row selected by `ORDER BY id ASC LIMIT 1` among rows matching `p`. -/
def oldestMatch (p : RecoveryJob → Bool) : List RecoveryJob → Option RecoveryJob
  | [] => none
  | j :: rest =>
    match oldestMatch p rest with
    | none => if p j = true then some j else none
    | some k => if p j = true ∧ j.id < k.id then some j else some k

/-- UPDATE ... WHERE id = qid, applying `f` to every matching row. -/
def updateJob (s : QueueState) (qid : Nat) (f : RecoveryJob → RecoveryJob) : QueueState :=
  { s with jobs := s.jobs.map fun j => if j.id = qid then f j else j }

/-- SELECT * FROM recovery_queue WHERE id = qid (`get_recovery_by_id`). -/
def getRecoveryById (s : QueueState) (qid : Nat) : Option RecoveryJob :=
  s.jobs.find? fun j => j.id = qid

/-- Predicate of the dedup query in `enqueue_recovery`:
same (source_group_id, topic_id) and status IN ('pending','running'). -/
def enqueueConflict (g t : Nat) (j : RecoveryJob) : Bool :=
  j.source_group_id = g && j.topic_id = t &&
    (j.status = JobStatus.pending || j.status = JobStatus.running)

/-- Predicate of the dedup query in `enqueue_manual_recovery`:
status IN ('pending','running','stopping'). -/
def enqueueManualConflict (g t : Nat) (j : RecoveryJob) : Bool :=
  j.source_group_id = g && j.topic_id = t &&
    (j.status = JobStatus.pending || j.status = JobStatus.running ||
      j.status = JobStatus.stopping)

/-- Database.enqueue_recovery: return the newest pending/running job id for the
pair if one exists, otherwise insert a fresh pending row and return its id. -/
def enqueueRecovery (s : QueueState) (g t : Nat) (old : Int) (reason : String) :
    QueueState × Nat :=
  match newestMatch (enqueueConflict g t) s.jobs with
  | some j => (s, j.id)
  | none =>
    let job : RecoveryJob :=
      { id := s.nextId, source_group_id := g, topic_id := t,
        old_channel_chat_id := old, reason := reason, status := JobStatus.pending }
    ({ jobs := s.jobs ++ [job], nextId := s.nextId + 1 }, s.nextId)

/-- Database.enqueue_manual_recovery: dedup against pending/running/stopping and
pre-assign the new channel. -/
def enqueueManualRecovery (s : QueueState) (g t : Nat) (channel : Int) (reason : String) :
    QueueState × Nat :=
  match newestMatch (enqueueManualConflict g t) s.jobs with
  | some j => (s, j.id)
  | none =>
    let job : RecoveryJob :=
      { id := s.nextId, source_group_id := g, topic_id := t,
        old_channel_chat_id := channel, new_channel_chat_id := some channel,
        reason := reason, status := JobStatus.pending }
    ({ jobs := s.jobs ++ [job], nextId := s.nextId + 1 }, s.nextId)

/-- Database.claim_next_recovery: take the oldest pending row and mark it running. -/
def claimNextRecovery (s : QueueState) : QueueState × Option RecoveryJob :=
  match oldestMatch (fun j => j.status = JobStatus.pending) s.jobs with
  | none => (s, none)
  | some j =>
    (updateJob s j.id (fun k => { k with status := JobStatus.running }),
      some { j with status := JobStatus.running })

/-- Database.claim_recovery_by_id: refuse rows that are done or already
running, otherwise mark the row running. -/
def claimRecoveryById (s : QueueState) (qid : Nat) : QueueState × Option RecoveryJob :=
  match getRecoveryById s qid with
  | none => (s, none)
  | some j =>
    if j.status = JobStatus.done then (s, none)
    else if j.status = JobStatus.running then (s, none)
    else
      (updateJob s qid (fun k => { k with status := JobStatus.running }),
        some { j with status := JobStatus.running })

/-- Database.requeue_recovery_task (state effect): done rows raise; otherwise
the row goes back to pending, zeroing the counters when `restart` holds.
A raised error leaves the store unchanged. -/
def requeueRecoveryTask (s : QueueState) (qid : Nat) (restart : Bool) : QueueState :=
  match getRecoveryById s qid with
  | none => s
  | some j =>
    if j.status = JobStatus.done then s
    else
      let rc := if restart then 0 else j.retry_count
      let lc := if restart then 0 else j.last_cloned_message_id
      let actionText := if restart then "手动重新执行(从头)" else "手动继续执行(断点)"
      updateJob s qid fun k =>
        { k with
          status := JobStatus.pending, retry_count := rc,
          last_cloned_message_id := lc, last_error := some actionText }

/-- Database.stop_recovery_task (state effect): pending rows stop immediately,
running rows become stopping, stopping is a no-op, terminal states raise
(leaving the store unchanged). -/
def stopRecoveryTask (s : QueueState) (qid : Nat) : QueueState :=
  match getRecoveryById s qid with
  | none => s
  | some j =>
    match j.status with
    | JobStatus.pending =>
      updateJob s qid fun k =>
        { k with status := JobStatus.stopped, last_error := some "手动停止(未执行)" }
    | JobStatus.running =>
      updateJob s qid fun k =>
        { k with
          status := JobStatus.stopping,
          last_error := some "已请求停止，等待当前步骤结束" }
    | _ => s

/-- Database.mark_recovery_failed: retry as pending while `retry_count + 1`
stays below `max_retry`, otherwise park as failed; either way increment the
counter and truncate the error text to 500 characters. -/
def markRecoveryFailed (s : QueueState) (qid : Nat) (retryCount : Int)
    (errorText : String) (maxRetry : Int) : QueueState :=
  if retryCount + 1 < maxRetry then
    updateJob s qid fun k =>
      { k with
        status := JobStatus.pending, retry_count := retryCount + 1,
        last_error := some (pySlice errorText 500) }
  else
    updateJob s qid fun k =>
      { k with
        status := JobStatus.failed, retry_count := retryCount + 1,
        last_error := some (pySlice errorText 500) }

/-- Database.reset_running_recovery_tasks: bulk running to pending. -/
def resetRunningRecoveryTasks (s : QueueState) : QueueState :=
  { s with
    jobs := s.jobs.map fun j =>
      if j.status = JobStatus.running then
        { j with
          status := JobStatus.pending,
          last_error := some "手动重置运行中任务为 pending" }
      else j }

/-- Database.update_recovery_progress. -/
def updateRecoveryProgress (s : QueueState) (qid : Nat) (lastId : Nat) : QueueState :=
  updateJob s qid fun k => { k with last_cloned_message_id := lastId }

/-- Database.mark_recovery_done. -/
def markRecoveryDone (s : QueueState) (qid : Nat) (newChannel : Int)
    (summary : String) (lastId : Option Nat) : QueueState :=
  updateJob s qid fun k =>
    { k with
      status := JobStatus.done, new_channel_chat_id := some newChannel,
      last_error := some summary,
      last_cloned_message_id := lastId.getD k.last_cloned_message_id }

/-- Database.is_recovery_stop_requested: true when the row is stopping,
stopped, or missing. -/
def isRecoveryStopRequested (s : QueueState) (qid : Nat) : Bool :=
  match getRecoveryById s qid with
  | none => true
  | some j => j.status = JobStatus.stopping || j.status = JobStatus.stopped

/-- States reachable from the empty store through the recovery-queue
operations named by the specification (enqueue, enqueueManual, claim,
requeue, stop, markFailed, resetRunning). -/
inductive QueueReachable : QueueState → Prop
  | init : QueueReachable {}
  | enqueue (s : QueueState) (g t : Nat) (old : Int) (r : String) :
      QueueReachable s → QueueReachable (enqueueRecovery s g t old r).1
  | enqueueManual (s : QueueState) (g t : Nat) (c : Int) (r : String) :
      QueueReachable s → QueueReachable (enqueueManualRecovery s g t c r).1
  | claimNext (s : QueueState) :
      QueueReachable s → QueueReachable (claimNextRecovery s).1
  | claimById (s : QueueState) (qid : Nat) :
      QueueReachable s → QueueReachable (claimRecoveryById s qid).1
  | requeue (s : QueueState) (qid : Nat) (restart : Bool) :
      QueueReachable s → QueueReachable (requeueRecoveryTask s qid restart)
  | stop (s : QueueState) (qid : Nat) :
      QueueReachable s → QueueReachable (stopRecoveryTask s qid)
  | markFailed (s : QueueState) (qid : Nat) (rc : Int) (err : String) (maxR : Int) :
      QueueReachable s → QueueReachable (markRecoveryFailed s qid rc err maxR)
  | resetRunning (s : QueueState) :
      QueueReachable s → QueueReachable (resetRunningRecoveryTasks s)

/-- Number of jobs for a pair whose status lies in pending/running/stopping. -/
def countActive (s : QueueState) (g t : Nat) : Nat :=
  (s.jobs.filter (enqueueManualConflict g t)).length

/-- Concrete trace refuting claim C1: enqueue, claim, stop, enqueue again. -/
def c1State3 : QueueState :=
  stopRecoveryTask (claimNextRecovery (enqueueRecovery {} 1 10 (-2) "x").1).1 1

/-- Final state of the C1 trace, after the second enqueue. -/
def c1State4 : QueueState := (enqueueRecovery c1State3 1 10 (-2) "y").1

/-- A store holding exactly one pending job (used to instantiate theorems). -/
def qsOnePending : QueueState := (enqueueRecovery {} 1 10 (-2) "x").1

/-- The single row of `qsOnePending`. -/
def qsOnePendingJob : RecoveryJob :=
  { id := 1, source_group_id := 1, topic_id := 10, old_channel_chat_id := -2,
    reason := "x", status := JobStatus.pending }

theorem newestMatch_mem {p : RecoveryJob → Bool} :
    ∀ {l : List RecoveryJob} {k : RecoveryJob},
      newestMatch p l = some k → k ∈ l ∧ p k = true := by
  intro l
  induction l with
  | nil => intro k h; simp [newestMatch] at h
  | cons j rest ih =>
    intro k h
    cases hr : newestMatch p rest with
    | none =>
      simp only [newestMatch, hr] at h
      by_cases hp : p j = true
      · rw [if_pos hp] at h
        cases h
        exact ⟨List.mem_cons_self _ _, hp⟩
      · rw [if_neg hp] at h
        cases h
    | some m =>
      simp only [newestMatch, hr] at h
      have hm := ih hr
      by_cases hc : p j = true ∧ m.id < j.id
      · rw [if_pos hc] at h
        cases h
        exact ⟨List.mem_cons_self _ _, hc.1⟩
      · rw [if_neg hc] at h
        cases h
        exact ⟨List.mem_cons_of_mem _ hm.1, hm.2⟩

theorem newestMatch_isSome {p : RecoveryJob → Bool} {l : List RecoveryJob}
    (j : RecoveryJob) (hj : j ∈ l) (hp : p j = true) :
    (newestMatch p l).isSome = true := by
  induction l with
  | nil => cases hj
  | cons a rest ih =>
    rcases List.mem_cons.mp hj with h | h
    · subst h
      cases hr : newestMatch p rest with
      | none => simp [newestMatch, hr, hp]
      | some m =>
        simp only [newestMatch, hr]
        by_cases hc : p j = true ∧ m.id < j.id
        · rw [if_pos hc]; rfl
        · rw [if_neg hc]; rfl
    · have hs := ih h
      cases hr : newestMatch p rest with
      | none => rw [hr] at hs; simp at hs
      | some m =>
        simp only [newestMatch, hr]
        by_cases hc : p a = true ∧ m.id < a.id
        · rw [if_pos hc]; rfl
        · rw [if_neg hc]; rfl

/-- C1: the quantified invariant fails on the code.  Trace: enqueue a job for
pair (1,10), claim it (running), stop it (stopping), then enqueue again.
`enqueue_recovery` dedups only against pending/running, so the second enqueue
inserts a fresh row instead of returning job 1, leaving two jobs for the
pair inside the pending/running/stopping set. -/
theorem c1_counterexample :
    QueueReachable c1State4 ∧
    (c1State3.jobs.map fun j => (j.id, j.status)) = [(1, JobStatus.stopping)] ∧
    (enqueueRecovery c1State3 1 10 (-2) "y").2 = 2 ∧
    c1State4.jobs.length = c1State3.jobs.length + 1 ∧
    countActive c1State4 1 10 = 2 := by
  refine ⟨?_, by decide, by decide, by decide, by decide⟩
  exact QueueReachable.enqueue _ 1 10 (-2) "y"
    (QueueReachable.stop _ 1
      (QueueReachable.claimNext _
        (QueueReachable.enqueue _ 1 10 (-2) "x" QueueReachable.init)))

/-- C1 (amended): `enqueue_recovery` is idempotent against the pending/running
set only — whenever some job for `(g, t)` is pending or running, enqueue
leaves the store unchanged and returns the id of such a job (the newest one);
a lone `stopping` job does not block a new insert, so two jobs inside
pending/running/stopping may coexist for one pair. -/
theorem enqueueRecovery_idempotent (s : QueueState) (g t : Nat) (old : Int)
    (r : String) (h : ∃ j ∈ s.jobs, enqueueConflict g t j = true) :
    (enqueueRecovery s g t old r).1 = s ∧
    ∃ k ∈ s.jobs, enqueueConflict g t k = true ∧
      (enqueueRecovery s g t old r).2 = k.id := by
  obtain ⟨j, hj, hp⟩ := h
  have hsome := newestMatch_isSome (p := enqueueConflict g t) j hj hp
  cases hm : newestMatch (enqueueConflict g t) s.jobs with
  | none => rw [hm] at hsome; simp at hsome
  | some k =>
    have hk := newestMatch_mem hm
    unfold enqueueRecovery
    rw [hm]
    exact ⟨rfl, k, hk.1, hk.2, rfl⟩

/-- Closed instantiation of the amended C1 theorem on a one-job store. -/
theorem enqueueRecovery_idempotent_witness :
    (enqueueRecovery qsOnePending 1 10 (-2) "y").1 = qsOnePending ∧
    ∃ k ∈ qsOnePending.jobs, enqueueConflict 1 10 k = true ∧
      (enqueueRecovery qsOnePending 1 10 (-2) "y").2 = k.id :=
  enqueueRecovery_idempotent qsOnePending 1 10 (-2) "y"
    ⟨qsOnePendingJob, by decide, by decide⟩

/-- C4: `mark_recovery_failed` sends the row back to pending with an
incremented retry counter exactly when `retry_count + 1 < max_retry`, parks it
as failed otherwise, and stores the error truncated to 500 characters. -/
theorem markRecoveryFailed_spec (s : QueueState) (qid : Nat) (r : Int)
    (err : String) (maxR : Int) :
    ∀ j ∈ (markRecoveryFailed s qid r err maxR).jobs, j.id = qid →
      (j.status = JobStatus.pending ↔ r + 1 < maxR) ∧
      (j.status = JobStatus.failed ↔ ¬ r + 1 < maxR) ∧
      j.retry_count = r + 1 ∧
      j.last_error = some (pySlice err 500) ∧
      (pySlice err 500).length ≤ 500 := by
  intro j hj hid
  have hlen : (pySlice err 500).length ≤ 500 := by
    show (err.data.take 500).length ≤ 500
    rw [List.length_take]
    exact min_le_left _ _
  by_cases hlt : r + 1 < maxR
  · rw [markRecoveryFailed, if_pos hlt, updateJob] at hj
    obtain ⟨a, _, hEq⟩ := List.mem_map.mp hj
    by_cases hida : a.id = qid
    · rw [if_pos hida] at hEq
      subst hEq
      exact ⟨iff_of_true rfl hlt, iff_of_false (by simp) (not_not_intro hlt),
        rfl, rfl, hlen⟩
    · rw [if_neg hida] at hEq
      subst hEq
      exact absurd hid hida
  · rw [markRecoveryFailed, if_neg hlt, updateJob] at hj
    obtain ⟨a, _, hEq⟩ := List.mem_map.mp hj
    by_cases hida : a.id = qid
    · rw [if_pos hida] at hEq
      subst hEq
      exact ⟨iff_of_false (by simp) hlt, iff_of_true rfl hlt, rfl, rfl, hlen⟩
    · rw [if_neg hida] at hEq
      subst hEq
      exact absurd hid hida

/-! ## Channels and bindings (app/db.py, channels / topic_bindings tables)

Embedding of the `channels` and `topic_bindings` tables together with the
`Database` methods that write them.  Timestamps are threaded as an opaque
`now` string supplied by each operation.
-/

/-- One row of the `channels` table. -/
structure ChannelRow where
  id : Nat
  chat_id : Int
  title : String
  is_standby : Bool
  in_use : Bool
  consumed_at : Option String := none
  admin_check_at : Option String := none
  last_seen_at : String := ""
deriving DecidableEq, Repr

/-- One row of the `topic_bindings` table. -/
structure BindingRow where
  id : Nat
  source_group_id : Nat
  topic_id : Nat
  channel_chat_id : Int
  active : Bool := true
deriving DecidableEq, Repr

/-- The channel and binding tables with their autoincrement counters. -/
structure ChannelStore where
  channels : List ChannelRow := []
  bindings : List BindingRow := []
  nextChannelId : Nat := 1
  nextBindingId : Nat := 1
deriving DecidableEq, Repr

/-- Database.upsert_channel: INSERT ... ON CONFLICT(chat_id) DO UPDATE.  The
update branch keeps `consumed_at` and merges `admin_check_at` through
COALESCE(excluded, existing); the insert branch stamps `consumed_at` from the
`consumed` flag. -/
def upsertChannel (s : ChannelStore) (chat : Int) (title : String)
    (isStandby inUse consumed : Bool) (adminCheckAt : Option String)
    (now : String) : ChannelStore :=
  if s.channels.any fun c => c.chat_id = chat then
    { s with
      channels := s.channels.map fun c =>
        if c.chat_id = chat then
          { c with
            title := title, is_standby := isStandby, in_use := inUse,
            admin_check_at := match adminCheckAt with
              | some a => some a
              | none => c.admin_check_at,
            last_seen_at := now }
        else c }
  else
    { s with
      channels := s.channels ++
        [{ id := s.nextChannelId, chat_id := chat, title := title,
           is_standby := isStandby, in_use := inUse,
           consumed_at := if consumed then some now else none,
           admin_check_at := adminCheckAt, last_seen_at := now }],
      nextChannelId := s.nextChannelId + 1 }

/-- Database.upsert_binding: upsert the (source_group_id, topic_id) row to the
new channel with active=1, then force the channel row to in_use=1,
is_standby=0. -/
def upsertBinding (s : ChannelStore) (g t : Nat) (chan : Int) : ChannelStore :=
  let s1 : ChannelStore :=
    if s.bindings.any fun b => b.source_group_id = g ∧ b.topic_id = t then
      { s with
        bindings := s.bindings.map fun b =>
          if b.source_group_id = g ∧ b.topic_id = t then
            { b with channel_chat_id := chan, active := true }
          else b }
    else
      { s with
        bindings := s.bindings ++
          [{ id := s.nextBindingId, source_group_id := g, topic_id := t,
             channel_chat_id := chan }],
        nextBindingId := s.nextBindingId + 1 }
  { s1 with
    channels := s1.channels.map fun c =>
      if c.chat_id = chan then { c with in_use := true, is_standby := false }
      else c }

/-- Database.consume_standby_channel. -/
def consumeStandbyChannel (s : ChannelStore) (chat : Int) (now : String) :
    ChannelStore :=
  { s with
    channels := s.channels.map fun c =>
      if c.chat_id = chat then
        { c with is_standby := false, in_use := true, consumed_at := some now }
      else c }

/-- Database.reset_available_standby_channels: is_standby=0 where in_use=0. -/
def resetAvailableStandbyChannels (s : ChannelStore) : ChannelStore :=
  { s with
    channels := s.channels.map fun c =>
      if c.in_use = false then { c with is_standby := false } else c }

/-- Database.delete_channel. -/
def deleteChannel (s : ChannelStore) (chat : Int) : ChannelStore :=
  { s with channels := s.channels.filter fun c => ¬ c.chat_id = chat }

/-- Database.clear_standby_channels: DELETE FROM channels WHERE in_use=0. -/
def clearStandbyChannels (s : ChannelStore) : ChannelStore :=
  { s with channels := s.channels.filter fun c => c.in_use = true }

/-- Database.mark_channel_last_seen; the title is replaced only when truthy. -/
def markChannelLastSeen (s : ChannelStore) (chat : Int) (title : Option String)
    (now : String) : ChannelStore :=
  { s with
    channels := s.channels.map fun c =>
      if c.chat_id = chat then
        if ¬ title.getD "" = "" then { c with title := title.getD "", last_seen_at := now }
        else { c with last_seen_at := now }
      else c }

/-- Database.set_binding_active. -/
def setBindingActive (s : ChannelStore) (g t : Nat) (active : Bool) : ChannelStore :=
  { s with
    bindings := s.bindings.map fun b =>
      if b.source_group_id = g ∧ b.topic_id = t then { b with active := active }
      else b }

/-- Database.detach_channel_bindings: active=0 for every binding on a channel. -/
def detachChannelBindings (s : ChannelStore) (chan : Int) : ChannelStore :=
  { s with
    bindings := s.bindings.map fun b =>
      if b.channel_chat_id = chan then { b with active := false } else b }

/-- Database.list_standby_channels: is_standby=1 AND in_use=0. -/
def listStandbyChannels (s : ChannelStore) : List ChannelRow :=
  s.channels.filter fun c => c.is_standby = true ∧ c.in_use = false

/-- No channel row may be simultaneously standby and in use. -/
def channelInvariant (s : ChannelStore) : Prop :=
  ∀ c ∈ s.channels, ¬ (c.is_standby = true ∧ c.in_use = true)

/-- States reachable from the empty store through the channel and binding
operations, with operation arguments unconstrained. -/
inductive ChReachable : ChannelStore → Prop
  | init : ChReachable {}
  | upsertChannel (s : ChannelStore) (chat : Int) (title : String)
      (st iu con : Bool) (ac : Option String) (now : String) :
      ChReachable s → ChReachable (upsertChannel s chat title st iu con ac now)
  | upsertBinding (s : ChannelStore) (g t : Nat) (chan : Int) :
      ChReachable s → ChReachable (upsertBinding s g t chan)
  | consume (s : ChannelStore) (chat : Int) (now : String) :
      ChReachable s → ChReachable (consumeStandbyChannel s chat now)
  | reset (s : ChannelStore) :
      ChReachable s → ChReachable (resetAvailableStandbyChannels s)
  | delete (s : ChannelStore) (chat : Int) :
      ChReachable s → ChReachable (deleteChannel s chat)
  | clear (s : ChannelStore) :
      ChReachable s → ChReachable (clearStandbyChannels s)
  | markSeen (s : ChannelStore) (chat : Int) (title : Option String) (now : String) :
      ChReachable s → ChReachable (markChannelLastSeen s chat title now)
  | setActive (s : ChannelStore) (g t : Nat) (a : Bool) :
      ChReachable s → ChReachable (setBindingActive s g t a)
  | detach (s : ChannelStore) (chan : Int) :
      ChReachable s → ChReachable (detachChannelBindings s chan)

/-- States reachable when every `upsert_channel` call keeps its flag arguments
mutually exclusive, as every call site in the repository does (routers pass
`is_standby=False, in_use=True`; channel_service and the bot sync service pass
`is_standby := f(..) and not bindings, in_use := bindings`). -/
inductive ChGoodReachable : ChannelStore → Prop
  | init : ChGoodReachable {}
  | upsertChannel (s : ChannelStore) (chat : Int) (title : String)
      (st iu con : Bool) (ac : Option String) (now : String)
      (hok : ¬ (st = true ∧ iu = true)) :
      ChGoodReachable s → ChGoodReachable (upsertChannel s chat title st iu con ac now)
  | upsertBinding (s : ChannelStore) (g t : Nat) (chan : Int) :
      ChGoodReachable s → ChGoodReachable (upsertBinding s g t chan)
  | consume (s : ChannelStore) (chat : Int) (now : String) :
      ChGoodReachable s → ChGoodReachable (consumeStandbyChannel s chat now)
  | reset (s : ChannelStore) :
      ChGoodReachable s → ChGoodReachable (resetAvailableStandbyChannels s)
  | delete (s : ChannelStore) (chat : Int) :
      ChGoodReachable s → ChGoodReachable (deleteChannel s chat)
  | clear (s : ChannelStore) :
      ChGoodReachable s → ChGoodReachable (clearStandbyChannels s)
  | markSeen (s : ChannelStore) (chat : Int) (title : Option String) (now : String) :
      ChGoodReachable s → ChGoodReachable (markChannelLastSeen s chat title now)
  | setActive (s : ChannelStore) (g t : Nat) (a : Bool) :
      ChGoodReachable s → ChGoodReachable (setBindingActive s g t a)
  | detach (s : ChannelStore) (chan : Int) :
      ChGoodReachable s → ChGoodReachable (detachChannelBindings s chan)

/-- Store produced by a single is_standby=1, in_use=1 upsert. -/
def chBad : ChannelStore := upsertChannel {} (-70) "t" true true false none "ts"

/-- C6: the no-standby-and-in-use invariant is not enforced by the store:
`upsert_channel` writes its flag arguments verbatim, so a single call with
`is_standby=True, in_use=True` reaches a state with a row violating it. -/
theorem c6_counterexample :
    ChReachable chBad ∧
    (chBad.channels.map fun c => (c.chat_id, c.is_standby, c.in_use)) =
      [(-70, true, true)] :=
  ⟨ChReachable.upsertChannel {} (-70) "t" true true false none "ts"
    ChReachable.init, by decide⟩

theorem channelInvariant_map (l : List ChannelRow) (f : ChannelRow → ChannelRow)
    (hf : ∀ c ∈ l, ¬ ((f c).is_standby = true ∧ (f c).in_use = true)) :
    ∀ c ∈ l.map f, ¬ (c.is_standby = true ∧ c.in_use = true) := by
  intro c hc
  obtain ⟨a, ha, hEq⟩ := List.mem_map.mp hc
  subst hEq
  exact hf a ha

/-- C6 (amended): after `upsert_binding` the channel row of the bound chat id
is in_use and not standby (hence absent from list_standby_channels); and the
invariant "no row is both standby and in use" holds in every state reachable
through the channel and binding operations, provided each `upsert_channel`
call passes mutually exclusive flags, which all call sites in the repository
do.  Unconstrained `upsert_channel` arguments violate it (see the
counterexample). -/
theorem c6_amended :
    (∀ s : ChannelStore, ChGoodReachable s → channelInvariant s) ∧
    (∀ (s : ChannelStore) (g t : Nat) (chan : Int),
      ∀ c ∈ (upsertBinding s g t chan).channels, c.chat_id = chan →
        c.in_use = true ∧ c.is_standby = false ∧
          c ∉ listStandbyChannels (upsertBinding s g t chan)) := by
  constructor
  · intro s hs
    induction hs with
    | init => intro c hc; cases hc
    | upsertChannel s chat title st iu con ac now hok hs ih =>
      intro c hc
      unfold upsertChannel at hc
      by_cases hex : (s.channels.any fun c => c.chat_id = chat) = true
      · rw [if_pos hex] at hc
        refine channelInvariant_map _ _ ?_ c hc
        intro a _
        by_cases hca : a.chat_id = chat
        · rw [if_pos hca]; exact hok
        · rw [if_neg hca]; exact ih a (by assumption)
      · rw [if_neg hex] at hc
        rcases List.mem_append.mp hc with h | h
        · exact ih c h
        · rcases List.mem_singleton.mp h with rfl
          exact hok
    | upsertBinding s g t chan hs ih =>
      intro c hc
      obtain ⟨a, ha, hEq⟩ := List.mem_map.mp hc
      subst hEq
      by_cases hca : a.chat_id = chan
      · rw [if_pos hca]; rintro ⟨h1, _⟩; cases h1
      · rw [if_neg hca]
        split at ha
        · exact ih a ha
        · exact ih a ha
    | consume s chat now hs ih =>
      intro c hc
      obtain ⟨a, ha, hEq⟩ := List.mem_map.mp hc
      subst hEq
      by_cases hca : a.chat_id = chat
      · rw [if_pos hca]; rintro ⟨h1, _⟩; cases h1
      · rw [if_neg hca]; exact ih a ha
    | reset s hs ih =>
      intro c hc
      obtain ⟨a, ha, hEq⟩ := List.mem_map.mp hc
      subst hEq
      by_cases hca : a.in_use = false
      · rw [if_pos hca]; rintro ⟨h1, _⟩; cases h1
      · rw [if_neg hca]; exact ih a ha
    | delete s chat hs ih =>
      intro c hc
      exact ih c (List.mem_of_mem_filter hc)
    | clear s hs ih =>
      intro c hc
      exact ih c (List.mem_of_mem_filter hc)
    | markSeen s chat title now hs ih =>
      intro c hc
      obtain ⟨a, ha, hEq⟩ := List.mem_map.mp hc
      subst hEq
      by_cases hca : a.chat_id = chat
      · rw [if_pos hca]
        by_cases ht : ¬ title.getD "" = ""
        · rw [if_pos ht]; exact ih a ha
        · rw [if_neg ht]; exact ih a ha
      · rw [if_neg hca]; exact ih a ha
    | setActive s g t a hs ih => exact ih
    | detach s chan hs ih => exact ih
  · intro s g t chan c hc hchat
    have hmem := hc
    unfold upsertBinding at hmem
    obtain ⟨a, _, hEq⟩ := List.mem_map.mp hmem
    by_cases hca : a.chat_id = chan
    · rw [if_pos hca] at hEq
      subst hEq
      refine ⟨rfl, rfl, ?_⟩
      intro hstand
      have := (List.mem_filter.mp hstand).2
      simp at this
    · rw [if_neg hca] at hEq
      subst hEq
      exact absurd hchat hca

/-- Closed instantiation of the amended C6 theorem: the invariant holds on a
store built by a standby upsert followed by a binding upsert, and the bound
channel is in use, not standby, and absent from the standby list. -/
theorem c6_amended_witness :
    channelInvariant (upsertBinding (upsertChannel {} (-70) "t" true false false none "ts") 1 10 (-70)) ∧
    ∃ c ∈ (upsertBinding (upsertChannel {} (-70) "t" true false false none "ts") 1 10 (-70)).channels,
      c.chat_id = (-70 : Int) ∧ c.in_use = true ∧ c.is_standby = false := by
  have hreach : ChGoodReachable (upsertBinding (upsertChannel {} (-70) "t" true false false none "ts") 1 10 (-70)) :=
    ChGoodReachable.upsertBinding _ 1 10 (-70)
      (ChGoodReachable.upsertChannel {} (-70) "t" true false false none "ts"
        (by simp) ChGoodReachable.init)
  refine ⟨c6_amended.1 _ hreach, ?_⟩
  refine ⟨{ id := 1, chat_id := -70, title := "t", is_standby := false,
            in_use := true, last_seen_at := "ts" }, by decide, by decide,
    ?_, ?_⟩
  · exact (c6_amended.2 (upsertChannel {} (-70) "t" true false false none "ts") 1 10 (-70)
      { id := 1, chat_id := -70, title := "t", is_standby := false,
        in_use := true, last_seen_at := "ts" } (by decide) (by decide)).1
  · exact (c6_amended.2 (upsertChannel {} (-70) "t" true false false none "ts") 1 10 (-70)
      { id := 1, chat_id := -70, title := "t", is_standby := false,
        in_use := true, last_seen_at := "ts" } (by decide) (by decide)).2.1

/-- Closed instantiation of the C4 theorem: failing a claimed job with
`retry_count = 0` and `max_retry = 3` reschedules it as pending. -/
theorem markRecoveryFailed_spec_witness :
    ∃ j ∈ (markRecoveryFailed qsOnePending 1 0 "boom" 3).jobs, j.id = 1 ∧
      (j.status = JobStatus.pending ↔ (0 : Int) + 1 < 3) ∧
      j.retry_count = (0 : Int) + 1 ∧
      j.last_error = some (pySlice "boom" 500) := by
  refine ⟨{ qsOnePendingJob with retry_count := 1, last_error := some "boom" },
    by decide, by decide, ?_⟩
  have h := markRecoveryFailed_spec qsOnePending 1 0 "boom" 3
    { qsOnePendingJob with retry_count := 1, last_error := some "boom" }
    (by decide) (by decide)
  exact ⟨h.1, h.2.2.1, h.2.2.2.1⟩

/-! ## Monitor scan (app/services/monitor_service.py, MonitorService.scan_once)

The scan iterates the rows returned by `list_active_bindings` (which joins in
the source group and topic enabled flags), skips rows whose source group is
not enabled, and otherwise runs `check_channel_access`; on failure it records
a banned channel and enqueues a recovery.  The access check is modelled as a
function from channel chat id to its `(ok, error_text)` result, and the
`add_banned_channel` / `enqueue_recovery` invocations are recorded as
argument lists alongside the threaded queue state.
-/

/-- One row of the `list_active_bindings` join. -/
structure ActiveBinding where
  source_group_id : Nat
  topic_id : Nat
  channel_chat_id : Int
  source_enabled : Int
  topic_enabled : Int
deriving DecidableEq, Repr

/-- Accumulated effects of one scan. -/
structure ScanResult where
  scanned : Nat := 0
  skippedSourceDisabled : Nat := 0
  unavailable : Nat := 0
  enqueued : Nat := 0
  checked : List Int := []
  bannedCalls : List (Nat × Nat × Int × String) := []
  enqueueCalls : List (Nat × Nat × Int × String) := []
  queue : QueueState := {}
deriving DecidableEq, Repr

/-- Python `error_text or "频道不可访问"`. -/
def banReason (errText : Option String) : String :=
  match errText with
  | some t => if t = "" then "频道不可访问" else t
  | none => "频道不可访问"

/-- Body of the `for binding in bindings` loop of `scan_once`. -/
def scanStep (access : Int → Bool × Option String) (r : ScanResult)
    (b : ActiveBinding) : ScanResult :=
  let r1 : ScanResult := { r with scanned := r.scanned + 1 }
  if ¬ b.source_enabled = 1 then
    { r1 with skippedSourceDisabled := r1.skippedSourceDisabled + 1 }
  else
    let res := access b.channel_chat_id
    let r2 : ScanResult := { r1 with checked := r1.checked ++ [b.channel_chat_id] }
    if res.1 = true then r2
    else
      let reason := banReason res.2
      let call := (b.source_group_id, b.topic_id, b.channel_chat_id, reason)
      { r2 with
        unavailable := r2.unavailable + 1,
        bannedCalls := r2.bannedCalls ++ [call],
        queue := (enqueueRecovery r2.queue b.source_group_id b.topic_id
          b.channel_chat_id reason).1,
        enqueueCalls := r2.enqueueCalls ++ [call],
        enqueued := r2.enqueued + 1 }

/-- MonitorService.scan_once over a binding list and a starting queue state. -/
def scanOnce (access : Int → Bool × Option String) (bs : List ActiveBinding)
    (q : QueueState) : ScanResult :=
  bs.foldl (scanStep access) { queue := q }

/-- Binding rows on which the scan runs the access check. -/
def scanEligible (b : ActiveBinding) : Bool :=
  b.source_enabled = 1

/-- Binding rows whose access check fails during the scan. -/
def scanFailing (access : Int → Bool × Option String) (b : ActiveBinding) : Bool :=
  scanEligible b && !(access b.channel_chat_id).1

/-- Arguments passed to both `add_banned_channel` and `enqueue_recovery`. -/
def bannedArgsOf (access : Int → Bool × Option String) (b : ActiveBinding) :
    Nat × Nat × Int × String :=
  (b.source_group_id, b.topic_id, b.channel_chat_id,
    banReason (access b.channel_chat_id).2)

/-- Binding used by the C7 counterexample: source enabled, topic disabled. -/
def c7Binding : ActiveBinding :=
  { source_group_id := 1, topic_id := 10, channel_chat_id := -50,
    source_enabled := 1, topic_enabled := 0 }

/-- C7: a binding whose topic is disabled is not skipped — `scan_once` tests
only `source_enabled` and invokes `check_channel_access` on the binding
anyway. -/
theorem c7_counterexample :
    c7Binding.topic_enabled = 0 ∧
    (scanOnce (fun _ => (true, none)) [c7Binding] {}).checked = [-50] ∧
    (scanOnce (fun _ => (false, some "dead")) [c7Binding] {}).bannedCalls =
      [(1, 10, -50, "dead")] ∧
    (scanOnce (fun _ => (false, some "dead")) [c7Binding] {}).enqueueCalls =
      [(1, 10, -50, "dead")] := by
  refine ⟨rfl, by decide, by decide, by decide⟩

theorem scanStep_checked (access : Int → Bool × Option String) (r : ScanResult)
    (b : ActiveBinding) :
    (scanStep access r b).checked =
      r.checked ++ if scanEligible b = true then [b.channel_chat_id] else [] := by
  by_cases hen : b.source_enabled = 1 <;>
    by_cases hok : (access b.channel_chat_id).1 = true <;>
      simp [scanStep, scanEligible, hen, hok]

theorem scanStep_banned (access : Int → Bool × Option String) (r : ScanResult)
    (b : ActiveBinding) :
    (scanStep access r b).bannedCalls =
      r.bannedCalls ++
        if scanFailing access b = true then [bannedArgsOf access b] else [] := by
  by_cases hen : b.source_enabled = 1 <;>
    by_cases hok : (access b.channel_chat_id).1 = true <;>
      simp [scanStep, scanEligible, scanFailing, bannedArgsOf, hen, hok]

theorem scanStep_enqueued (access : Int → Bool × Option String) (r : ScanResult)
    (b : ActiveBinding) :
    (scanStep access r b).enqueueCalls =
      r.enqueueCalls ++
        if scanFailing access b = true then [bannedArgsOf access b] else [] := by
  by_cases hen : b.source_enabled = 1 <;>
    by_cases hok : (access b.channel_chat_id).1 = true <;>
      simp [scanStep, scanEligible, scanFailing, bannedArgsOf, hen, hok]

theorem scanFold_spec (access : Int → Bool × Option String) :
    ∀ (bs : List ActiveBinding) (r : ScanResult),
      (bs.foldl (scanStep access) r).checked =
        r.checked ++ (bs.filter scanEligible).map (fun b => b.channel_chat_id) ∧
      (bs.foldl (scanStep access) r).bannedCalls =
        r.bannedCalls ++ (bs.filter (scanFailing access)).map (bannedArgsOf access) ∧
      (bs.foldl (scanStep access) r).enqueueCalls =
        r.enqueueCalls ++ (bs.filter (scanFailing access)).map (bannedArgsOf access) := by
  intro bs
  induction bs with
  | nil => intro r; simp
  | cons b rest ih =>
    intro r
    rw [List.foldl_cons]
    obtain ⟨ih1, ih2, ih3⟩ := ih (scanStep access r b)
    refine ⟨?_, ?_, ?_⟩
    · rw [ih1, scanStep_checked, List.filter_cons]
      by_cases hen : scanEligible b = true
      · simp [hen, List.append_assoc]
      · simp [hen]
    · rw [ih2, scanStep_banned, List.filter_cons]
      by_cases hf : scanFailing access b = true
      · simp [hf, List.append_assoc]
      · simp [hf]
    · rw [ih3, scanStep_enqueued, List.filter_cons]
      by_cases hf : scanFailing access b = true
      · simp [hf, List.append_assoc]
      · simp [hf]

/-- C7 (amended): the monitor skips a binding exactly when its source group is
disabled; `check_channel_access` is invoked exactly on the bindings whose
source group is enabled — including those whose topic is disabled — and the
banned-channel record plus recovery enqueue happen exactly for the enabled
bindings whose access check fails. -/
theorem scanOnce_spec (access : Int → Bool × Option String)
    (bs : List ActiveBinding) (q : QueueState) :
    (scanOnce access bs q).checked =
      (bs.filter scanEligible).map (fun b => b.channel_chat_id) ∧
    (scanOnce access bs q).bannedCalls =
      (bs.filter (scanFailing access)).map (bannedArgsOf access) ∧
    (scanOnce access bs q).enqueueCalls =
      (bs.filter (scanFailing access)).map (bannedArgsOf access) := by
  have h := scanFold_spec access bs { queue := q }
  simpa using h

/-! ## Reference normalisation
(app/services/telegram_manager.py, TelegramManager.normalize_chat_ref)

The method takes a chat reference that is either an integer or a string and
either returns a normalised reference or raises.  Python string primitives
are embedded over `List Char` (code points); `str.isdigit` and `str.strip`
are modelled on their ASCII behaviour, which covers every reference the
routers can transport.  `int(...)` is `pyIntParse` (optional single sign, then
ASCII digits); the distinct raise sites map to distinct `RefErr` values.
-/

/-- Whitespace stripped by Python `str.strip()` (ASCII fragment). -/
def pyIsSpaceChar (c : Char) : Bool :=
  c = ' ' || c = '\t' || c = '\n' || c = '\r' ||
    c = Char.ofNat 11 || c = Char.ofNat 12

/-- Python `str.strip()`. -/
def pyStripList (l : List Char) : List Char :=
  ((l.dropWhile pyIsSpaceChar).reverse.dropWhile pyIsSpaceChar).reverse

/-- Python `str.strip("/")`. -/
def stripSlashes (l : List Char) : List Char :=
  ((l.dropWhile fun c => c = '/').reverse.dropWhile fun c => c = '/').reverse

/-- Python `str.lower()` on ASCII letters. -/
def pyLowerChar (c : Char) : Char :=
  if 65 ≤ c.toNat ∧ c.toNat ≤ 90 then Char.ofNat (c.toNat + 32) else c

/-- Python `str.lower()`. -/
def pyLower (l : List Char) : List Char := l.map pyLowerChar

/-- Whether `pre` is a prefix of `l` (Python `str.startswith`). -/
def listStartsWith : List Char → List Char → Bool
  | [], _ => true
  | _ :: _, [] => false
  | a :: pre, b :: l => a = b && listStartsWith pre l

/-- Python `needle in hay` substring test. -/
def containsSeq (needle : List Char) : List Char → Bool
  | [] => needle.isEmpty
  | c :: rest => listStartsWith needle (c :: rest) || containsSeq needle rest

/-- Python `hay.split(sep, 1)` when `sep` occurs: the parts before and after
the first occurrence; `none` when `sep` does not occur. -/
def splitOnce (sep : List Char) : List Char → Option (List Char × List Char)
  | [] => none
  | c :: rest =>
    if listStartsWith sep (c :: rest) then some ([], (c :: rest).drop sep.length)
    else
      match splitOnce sep rest with
      | some (a, b) => some (c :: a, b)
      | none => none

/-- Python `str.split(sep)` with a single-character separator. -/
def splitAllChar (sep : Char) : List Char → List (List Char)
  | [] => [[]]
  | c :: rest =>
    let r := splitAllChar sep rest
    if c = sep then [] :: r
    else
      match r with
      | [] => [[c]]
      | seg :: segs => (c :: seg) :: segs

/-- Python `str.isdigit` on its ASCII fragment. -/
def pyIsDigit (l : List Char) : Bool :=
  !l.isEmpty && l.all fun c => '0' ≤ c ∧ c ≤ '9'

/-- Numeric value of an ASCII digit string. -/
def digitsVal (l : List Char) : Nat :=
  l.foldl (fun acc c => acc * 10 + (c.toNat - 48)) 0

/-- Python `int(str)` (optional surrounding whitespace, one optional sign,
then ASCII digits); `none` models the ValueError raise. -/
def pyIntParse (l : List Char) : Option Int :=
  let t := pyStripList l
  match t with
  | '-' :: rest => if pyIsDigit rest then some (-(digitsVal rest : Int)) else none
  | '+' :: rest => if pyIsDigit rest then some (digitsVal rest : Int) else none
  | _ => if pyIsDigit t then some (digitsVal t : Int) else none

/-- A chat reference: Python `str | int`. -/
inductive ChatRef
  | int (i : Int)
  | str (s : String)
deriving DecidableEq, Repr

/-- The distinct raise sites of `normalize_chat_ref`. -/
inductive RefErr
  | emptyValueError
  | intValueError
  | indexError
deriving DecidableEq, Repr

/-- Tail of `normalize_chat_ref` shared by both branches: numeric strings are
parsed to int, otherwise an `@` is ensured. -/
def finishRef (text : List Char) : Except RefErr ChatRef :=
  if pyIsDigit (text.dropWhile fun c => c = '-') = true then
    match pyIntParse text with
    | some v => Except.ok (ChatRef.int v)
    | none => Except.error RefErr.intValueError
  else
    if listStartsWith ("@".data) text = true then
      Except.ok (ChatRef.str (String.mk text))
    else
      Except.ok (ChatRef.str (String.mk ('@' :: text)))

/-- The `link_path` value of the `t.me` branch: slashes stripped from the part
after the marker, then any `?` query suffix removed. -/
def tmeLinkPath (afterTme : List Char) : List Char :=
  match splitOnce ("?".data) (stripSlashes afterTme) with
  | some (a, _) => a
  | none => stripSlashes afterTme

/-- Branch of `normalize_chat_ref` for references containing `t.me/`: split on
the link marker (the subscript raises IndexError if the lowered copy matched
but the original did not), strip slashes and a query suffix, resolve the
private `c/<internal>` form to `-100<internal>`, otherwise keep the first
path component. -/
def tmeBranch (text0 : List Char) : Except RefErr ChatRef :=
  match splitOnce ("t.me/".data) text0 with
  | none => Except.error RefErr.indexError
  | some (_, afterTme) =>
    if listStartsWith ("c/".data) (tmeLinkPath afterTme) = true ∧
        2 ≤ (splitAllChar '/' (tmeLinkPath afterTme)).length ∧
        pyIsDigit ((splitAllChar '/' (tmeLinkPath afterTme)).getD 1 []) = true then
      match pyIntParse ('-' :: '1' :: '0' :: '0' ::
          (splitAllChar '/' (tmeLinkPath afterTme)).getD 1 []) with
      | some v => Except.ok (ChatRef.int v)
      | none => Except.error RefErr.intValueError
    else
      finishRef
        (if containsSeq ("/".data) (tmeLinkPath afterTme) = true then
          ((splitOnce ("/".data) (tmeLinkPath afterTme)).getD
            (tmeLinkPath afterTme, [])).1
        else tmeLinkPath afterTme)

/-- TelegramManager.normalize_chat_ref. -/
def normalizeChatRef : ChatRef → Except RefErr ChatRef
  | ChatRef.int i => Except.ok (ChatRef.int i)
  | ChatRef.str s =>
    let text0 := pyStripList s.data
    if text0.isEmpty = true then Except.error RefErr.emptyValueError
    else if containsSeq ("t.me/".data) (pyLower text0) = true then
      tmeBranch text0
    else
      finishRef text0

/-- C8: the totality, exact-raise and idempotence parts of the claim all fail
on the code.  A whitespace-only reference is non-empty yet raises the
invalid-input error; `"--5"` is non-empty yet crashes inside `int(...)`
because `lstrip("-")` accepts multiple minus signs; and a `t.me` link whose
first path component ends with a space yields `"@foo "`, which a second
application changes to `"@foo"`. -/
theorem c8_counterexample :
    normalizeChatRef (ChatRef.str " ") = Except.error RefErr.emptyValueError ∧
    " " ≠ "" ∧
    normalizeChatRef (ChatRef.str "--5") = Except.error RefErr.intValueError ∧
    normalizeChatRef (ChatRef.str "t.me/foo /bar") =
      Except.ok (ChatRef.str "@foo ") ∧
    normalizeChatRef (ChatRef.str "@foo ") = Except.ok (ChatRef.str "@foo") := by
  refine ⟨rfl, by decide, rfl, rfl, rfl⟩

theorem listStartsWith_mem :
    ∀ {n l : List Char}, listStartsWith n l = true → ∀ c ∈ n, c ∈ l := by
  intro n
  induction n with
  | nil => intro l _ c hc; cases hc
  | cons a pre ih =>
    intro l h c hc
    cases l with
    | nil => cases h
    | cons b rest =>
      have h2 : (decide (a = b) && listStartsWith pre rest) = true := h
      simp only [Bool.and_eq_true, decide_eq_true_eq] at h2
      obtain ⟨hab2, hrest⟩ := h2
      rcases List.mem_cons.mp hc with rfl | hcm
      · exact hab2 ▸ List.mem_cons_self b rest
      · exact List.mem_cons_of_mem b (ih hrest c hcm)

theorem mem_of_containsSeq {needle : List Char} :
    ∀ {l : List Char}, containsSeq needle l = true → ∀ c ∈ needle, c ∈ l := by
  intro l
  induction l with
  | nil =>
    intro h c hc
    rw [containsSeq] at h
    rw [List.isEmpty_iff.mp h] at hc
    cases hc
  | cons b rest ih =>
    intro h c hc
    rw [containsSeq] at h
    simp only [Bool.or_eq_true] at h
    rcases h with h1 | h2
    · exact listStartsWith_mem h1 c hc
    · exact List.mem_cons_of_mem b (ih h2 c hc)

theorem not_mem_of_single_not_contained {c : Char} :
    ∀ {l : List Char}, containsSeq [c] l = false → c ∉ l := by
  intro l
  induction l with
  | nil => intro _ hc; cases hc
  | cons b rest ih =>
    intro h hc
    rw [containsSeq, Bool.or_eq_false_iff] at h
    obtain ⟨h1, h2⟩ := h
    rcases List.mem_cons.mp hc with rfl | hcm
    · have htrue : listStartsWith [c] (c :: rest) = true := by
        simp [listStartsWith]
      rw [h1] at htrue
      cases htrue
    · exact ih h2 hcm

theorem splitOnce_before_slash_free :
    ∀ {l a b : List Char}, splitOnce ("/".data) l = some (a, b) →
      ('/' : Char) ∉ a := by
  intro l
  induction l with
  | nil => intro a b h; cases h
  | cons c rest ih =>
    intro a b h
    rw [splitOnce] at h
    by_cases hs : listStartsWith ("/".data) (c :: rest) = true
    · rw [if_pos hs] at h
      cases h
      intro hc
      cases hc
    · rw [if_neg hs] at h
      cases hr : splitOnce ("/".data) rest with
      | none => rw [hr] at h; cases h
      | some p =>
        rw [hr] at h
        cases h
        intro hc
        have hcs : ('/' : Char) ≠ c := by
          intro hEq
          apply hs
          show listStartsWith ['/'] (c :: rest) = true
          rw [← hEq]
          simp [listStartsWith]
        rcases List.mem_cons.mp hc with hEq | hcm
        · exact hcs hEq
        · exact ih hr hcm

theorem splitOnce_isSome_of_contains {sep : List Char} (hne : sep.isEmpty = false) :
    ∀ {l : List Char}, containsSeq sep l = true → (splitOnce sep l).isSome = true := by
  intro l
  induction l with
  | nil => intro h; rw [containsSeq, hne] at h; cases h
  | cons c rest ih =>
    intro h
    rw [containsSeq] at h
    rw [splitOnce]
    by_cases hs : listStartsWith sep (c :: rest) = true
    · rw [if_pos hs]; rfl
    · rw [if_neg hs]
      simp only [Bool.or_eq_true] at h
      rcases h with h1 | h2
      · exact absurd h1 hs
      · have hsome := ih h2
        cases hsp : splitOnce sep rest with
        | none => rw [hsp] at hsome; cases hsome
        | some p =>
          obtain ⟨a2, b2⟩ := p
          rfl

theorem pyLowerChar_eq_slash {c : Char} (h : pyLowerChar c = '/') : c = '/' := by
  rw [pyLowerChar] at h
  by_cases hc : 65 ≤ c.toNat ∧ c.toNat ≤ 90
  · rw [if_pos hc] at h
    exfalso
    obtain ⟨h1, h2⟩ := hc
    set n := c.toNat with hn
    clear_value n
    interval_cases n <;> exact absurd h (by decide)
  · rwa [if_neg hc] at h

theorem no_tme_of_no_slash {l : List Char} (h : ('/' : Char) ∉ l) :
    containsSeq ("t.me/".data) (pyLower l) = false := by
  cases hx : containsSeq ("t.me/".data) (pyLower l) with
  | false => rfl
  | true =>
    exfalso
    have hmem : ('/' : Char) ∈ pyLower l :=
      mem_of_containsSeq hx '/' (by decide)
    obtain ⟨d, hd, hdeq⟩ := List.mem_map.mp hmem
    exact h (pyLowerChar_eq_slash hdeq ▸ hd)

theorem finishRef_ne_empty (text : List Char) :
    finishRef text ≠ Except.error RefErr.emptyValueError := by
  rw [finishRef]
  by_cases hd : pyIsDigit (text.dropWhile fun c => c = '-') = true
  · rw [if_pos hd]
    cases pyIntParse text <;> simp
  · rw [if_neg hd]
    by_cases hat : listStartsWith ("@".data) text = true
    · rw [if_pos hat]; simp
    · rw [if_neg hat]; simp

theorem tmeBranch_ne_empty (text0 : List Char) :
    tmeBranch text0 ≠ Except.error RefErr.emptyValueError := by
  cases hsp : splitOnce ("t.me/".data) text0 with
  | none => simp [tmeBranch, hsp]
  | some p =>
    obtain ⟨pa, pb⟩ := p
    simp only [tmeBranch, hsp]
    by_cases hcnd : listStartsWith ("c/".data) (tmeLinkPath pb) = true ∧
        2 ≤ (splitAllChar '/' (tmeLinkPath pb)).length ∧
        pyIsDigit ((splitAllChar '/' (tmeLinkPath pb)).getD 1 []) = true
    · rw [if_pos hcnd]
      cases pyIntParse ('-' :: '1' :: '0' :: '0' ::
          (splitAllChar '/' (tmeLinkPath pb)).getD 1 []) <;> simp
    · rw [if_neg hcnd]
      exact finishRef_ne_empty _

/-- Shape of the string results of `finishRef`: they start with an `@` and,
when the argument contains no lowered `t.me/`, neither do they. -/
theorem finishRef_shape {text : List Char} {t : String}
    (hns : containsSeq ("t.me/".data) (pyLower text) = false)
    (h : finishRef text = Except.ok (ChatRef.str t)) :
    (∃ u, t.data = '@' :: u) ∧
      containsSeq ("t.me/".data) (pyLower t.data) = false := by
  rw [finishRef] at h
  by_cases hd : pyIsDigit (text.dropWhile fun c => c = '-') = true
  · rw [if_pos hd] at h
    cases hpi : pyIntParse text with
    | none => simp only [hpi] at h; simp at h
    | some v => simp only [hpi] at h; simp at h
  · rw [if_neg hd] at h
    by_cases hat : listStartsWith ("@".data) text = true
    · rw [if_pos hat] at h
      cases h
      cases text with
      | nil => cases hat
      | cons c u =>
        have h2 : (decide ('@' = c) && listStartsWith [] u) = true := hat
        simp only [Bool.and_eq_true, decide_eq_true_eq] at h2
        obtain ⟨hca, _⟩ := h2
        subst hca
        exact ⟨⟨u, rfl⟩, hns⟩
    · rw [if_neg hat] at h
      cases h
      refine ⟨⟨text, rfl⟩, ?_⟩
      show containsSeq ("t.me/".data) (pyLower ('@' :: text)) = false
      have hmap : pyLower ('@' :: text) = '@' :: pyLower text := by
        show List.map pyLowerChar ('@' :: text) = '@' :: List.map pyLowerChar text
        rw [List.map_cons]
        rw [show pyLowerChar '@' = '@' from by decide]
      rw [hmap, containsSeq]
      have hsw : listStartsWith ("t.me/".data) ('@' :: pyLower text) = false := by
        show (decide ('t' = '@') && listStartsWith (".me/".data) (pyLower text)) = false
        rw [show (decide (('t' : Char) = '@')) = false from by decide]
        rfl
      rw [hsw, hns]
      rfl

/-- Shape of the string results of `tmeBranch`. -/
theorem tmeBranch_shape {text0 : List Char} {t : String}
    (h : tmeBranch text0 = Except.ok (ChatRef.str t)) :
    (∃ u, t.data = '@' :: u) ∧
      containsSeq ("t.me/".data) (pyLower t.data) = false := by
  cases hsp : splitOnce ("t.me/".data) text0 with
  | none => simp only [tmeBranch, hsp] at h; simp at h
  | some p =>
    obtain ⟨pa, pb⟩ := p
    simp only [tmeBranch, hsp] at h
    by_cases hcnd : listStartsWith ("c/".data) (tmeLinkPath pb) = true ∧
        2 ≤ (splitAllChar '/' (tmeLinkPath pb)).length ∧
        pyIsDigit ((splitAllChar '/' (tmeLinkPath pb)).getD 1 []) = true
    · rw [if_pos hcnd] at h
      cases hpi : pyIntParse ('-' :: '1' :: '0' :: '0' ::
          (splitAllChar '/' (tmeLinkPath pb)).getD 1 []) with
      | none => simp only [hpi] at h; simp at h
      | some v => simp only [hpi] at h; simp at h
    · rw [if_neg hcnd] at h
      by_cases hct : containsSeq ("/".data) (tmeLinkPath pb) = true
      · rw [if_pos hct] at h
        have hsome := splitOnce_isSome_of_contains (by decide) hct
        cases hsp2 : splitOnce ("/".data) (tmeLinkPath pb) with
        | none => rw [hsp2] at hsome; cases hsome
        | some q =>
          obtain ⟨qa, qb⟩ := q
          rw [hsp2] at h
          simp only [Option.getD] at h
          exact finishRef_shape
            (no_tme_of_no_slash (splitOnce_before_slash_free hsp2)) h
      · rw [if_neg hct] at h
        have hfree : ('/' : Char) ∉ tmeLinkPath pb :=
          not_mem_of_single_not_contained (Bool.not_eq_true _ ▸ hct)
        exact finishRef_shape (no_tme_of_no_slash hfree) h

/-- Unfolding of `normalize_chat_ref` on an explicit character list. -/
theorem normalizeChatRef_str_eval (l : List Char) :
    normalizeChatRef (ChatRef.str (String.mk l)) =
      (if (pyStripList l).isEmpty = true then Except.error RefErr.emptyValueError
       else if containsSeq ("t.me/".data) (pyLower (pyStripList l)) = true then
         tmeBranch (pyStripList l)
       else finishRef (pyStripList l)) := rfl

/-- Shape of the string results of `normalize_chat_ref`. -/
theorem normalizeChatRef_shape {s t : String}
    (h : normalizeChatRef (ChatRef.str s) = Except.ok (ChatRef.str t)) :
    (∃ u, t.data = '@' :: u) ∧
      containsSeq ("t.me/".data) (pyLower t.data) = false := by
  obtain ⟨ls⟩ := s
  rw [normalizeChatRef_str_eval] at h
  by_cases he : (pyStripList ls).isEmpty = true
  · rw [if_pos he] at h; cases h
  · rw [if_neg he] at h
    by_cases ht : containsSeq ("t.me/".data) (pyLower (pyStripList ls)) = true
    · rw [if_pos ht] at h
      exact tmeBranch_shape h
    · rw [if_neg ht] at h
      exact finishRef_shape (Bool.not_eq_true _ ▸ ht) h

/-- A reference already in normal form: integers, or strings that Python
`strip()` leaves unchanged. -/
def strippedRef : ChatRef → Prop
  | ChatRef.int _ => True
  | ChatRef.str t => pyStripList t.data = t.data

/-- C8 (amended): `normalize_chat_ref` passes integers through, raises the
empty-reference ValueError exactly on inputs that strip to the empty string
(so a whitespace-only string does raise it, and other non-empty inputs can
still fail differently, e.g. `"--5"` inside `int(...)`), and is idempotent on
every successful result that carries no surrounding whitespace. -/
theorem normalizeChatRef_amended :
    (∀ i : Int, normalizeChatRef (ChatRef.int i) = Except.ok (ChatRef.int i)) ∧
    (∀ s : String,
      normalizeChatRef (ChatRef.str s) = Except.error RefErr.emptyValueError ↔
        pyStripList s.data = []) ∧
    (∀ r out : ChatRef, normalizeChatRef r = Except.ok out → strippedRef out →
      normalizeChatRef out = Except.ok out) := by
  refine ⟨fun i => rfl, ?_, ?_⟩
  · intro s
    obtain ⟨ls⟩ := s
    show _ ↔ pyStripList ls = []
    rw [normalizeChatRef_str_eval]
    constructor
    · intro h
      by_cases he : (pyStripList ls).isEmpty = true
      · exact List.isEmpty_iff.mp he
      · exfalso
        rw [if_neg he] at h
        by_cases ht : containsSeq ("t.me/".data) (pyLower (pyStripList ls)) = true
        · rw [if_pos ht] at h
          exact tmeBranch_ne_empty _ h
        · rw [if_neg ht] at h
          exact finishRef_ne_empty _ h
    · intro h
      rw [if_pos (List.isEmpty_iff.mpr h)]
  · intro r out h hstr
    cases r with
    | int i => cases h; rfl
    | str s =>
      cases out with
      | int v => rfl
      | str t =>
        obtain ⟨⟨u, hu⟩, hns⟩ := normalizeChatRef_shape h
        obtain ⟨d⟩ := t
        have hd : d = '@' :: u := hu
        subst hd
        have hstr2 : pyStripList ('@' :: u) = '@' :: u := hstr
        have hns2 : containsSeq ("t.me/".data) (pyLower ('@' :: u)) = false := hns
        rw [normalizeChatRef_str_eval, hstr2]
        rw [if_neg (by simp)]
        rw [if_neg (by rw [hns2]; simp)]
        rw [finishRef]
        have hdig : pyIsDigit (('@' :: u).dropWhile fun c => c = '-') = false := by
          rw [List.dropWhile_cons, if_neg (by decide)]
          simp [pyIsDigit]
        rw [if_neg (by rw [hdig]; simp)]
        rw [if_pos (by simp [listStartsWith] :
          listStartsWith ("@".data) ('@' :: u) = true)]

/-- Closed instantiation of the amended C8 theorem: a plain username reference
normalises to an `@`-handle which a second application leaves unchanged, and a
whitespace-only reference raises the empty-reference error. -/
theorem normalizeChatRef_amended_witness :
    normalizeChatRef (ChatRef.str "@abc") = Except.ok (ChatRef.str "@abc") ∧
    normalizeChatRef (ChatRef.str "  ") = Except.error RefErr.emptyValueError :=
  ⟨normalizeChatRef_amended.2.2 (ChatRef.str "abc") (ChatRef.str "@abc") rfl
      (by show pyStripList ("@abc".data) = "@abc".data; decide),
    (normalizeChatRef_amended.2.1 "  ").mpr (by decide)⟩

/-! ## Panel session tokens
(app/services/panel_auth_service.py, PanelAuthService)

`build_session_token` signs the decimal expiry timestamp with
HMAC-SHA256 keyed by the panel password and `verify_session_token` checks the
signature and expiry.  SHA-256 and HMAC (the stdlib `hashlib` / `hmac`
behaviour) are implemented below over byte lists, with 32-bit words as `Nat`
reduced modulo `2^32`; the known-answer theorem for the FIPS `"abc"` vector
validates the embedding.
-/

/-- Truncation to a 32-bit word. -/
def w32 (n : Nat) : Nat := n % 4294967296

/-- 32-bit right rotation. -/
def rotr (n x : Nat) : Nat := w32 ((x >>> n) ||| (x <<< (32 - n)))

/-- SHA-256 choice function. -/
def shaCh (x y z : Nat) : Nat := (x &&& y) ^^^ ((x ^^^ 4294967295) &&& z)

/-- SHA-256 majority function. -/
def shaMaj (x y z : Nat) : Nat := ((x &&& y) ^^^ (x &&& z)) ^^^ (y &&& z)

/-- SHA-256 big sigma 0. -/
def bigS0 (x : Nat) : Nat := (rotr 2 x ^^^ rotr 13 x) ^^^ rotr 22 x

/-- SHA-256 big sigma 1. -/
def bigS1 (x : Nat) : Nat := (rotr 6 x ^^^ rotr 11 x) ^^^ rotr 25 x

/-- SHA-256 small sigma 0. -/
def smallS0 (x : Nat) : Nat := (rotr 7 x ^^^ rotr 18 x) ^^^ (x >>> 3)

/-- SHA-256 small sigma 1. -/
def smallS1 (x : Nat) : Nat := (rotr 17 x ^^^ rotr 19 x) ^^^ (x >>> 10)

/-- The 64 SHA-256 round constants. -/
def shaK : List Nat :=
  [1116352408, 1899447441, 3049323471, 3921009573, 961987163, 1508970993,
   2453635748, 2870763221, 3624381080, 310598401, 607225278, 1426881987,
   1925078388, 2162078206, 2614888103, 3248222580, 3835390401, 4022224774,
   264347078, 604807628, 770255983, 1249150122, 1555081692, 1996064986,
   2554220882, 2821834349, 2952996808, 3210313671, 3336571891, 3584528711,
   113926993, 338241895, 666307205, 773529912, 1294757372, 1396182291,
   1695183700, 1986661051, 2177026350, 2456956037, 2730485921, 2820302411,
   3259730800, 3345764771, 3516065817, 3600352804, 4094571909, 275423344,
   430227734, 506948616, 659060556, 883997877, 958139571, 1322822218,
   1537002063, 1747873779, 1955562222, 2024104815, 2227730452, 2361852424,
   2428436474, 2756734187, 3204031479, 3329325298]

/-- The eight SHA-256 working registers. -/
structure ShaState where
  sa : Nat
  sb : Nat
  sc : Nat
  sd : Nat
  se : Nat
  sf : Nat
  sg : Nat
  sh : Nat

/-- Extend the reversed message schedule by `k` further words. -/
def schedExt : List Nat → Nat → List Nat
  | rev, 0 => rev
  | rev, k + 1 =>
    schedExt
      (w32 (smallS1 (rev.getD 1 0) + rev.getD 6 0 +
        smallS0 (rev.getD 14 0) + rev.getD 15 0) :: rev) k

/-- The 64-word message schedule of one block. -/
def schedule (block : List Nat) : List Nat := (schedExt block.reverse 48).reverse

/-- One SHA-256 round on the pre-added `K[i] + W[i]` value. -/
def shaRound (s : ShaState) (kw : Nat) : ShaState :=
  let t1 := w32 (s.sh + bigS1 s.se + shaCh s.se s.sf s.sg + kw)
  let t2 := w32 (bigS0 s.sa + shaMaj s.sa s.sb s.sc)
  ⟨w32 (t1 + t2), s.sa, s.sb, s.sc, w32 (s.sd + t1), s.se, s.sf, s.sg⟩

/-- SHA-256 block compression. -/
def compress (s : ShaState) (block : List Nat) : ShaState :=
  let kw := List.zipWith (fun k x => w32 (k + x)) shaK (schedule block)
  let f := kw.foldl shaRound s
  ⟨w32 (s.sa + f.sa), w32 (s.sb + f.sb), w32 (s.sc + f.sc), w32 (s.sd + f.sd),
   w32 (s.se + f.se), w32 (s.sf + f.sf), w32 (s.sg + f.sg), w32 (s.sh + f.sh)⟩

/-- SHA-256 initial hash value. -/
def shaInit : ShaState :=
  ⟨1779033703, 3144134277, 1013904242, 2773480762,
   1359893119, 2600822924, 528734635, 1541459225⟩

/-- SHA-256 padding: a 1-bit, zeros, and the 64-bit big-endian bit length. -/
def padMessage (msg : List Nat) : List Nat :=
  let ml := 8 * msg.length
  let padLen := (64 - ((msg.length + 9) % 64)) % 64
  msg ++ [128] ++ List.replicate padLen 0 ++
    [(ml >>> 56) % 256, (ml >>> 48) % 256, (ml >>> 40) % 256, (ml >>> 32) % 256,
     (ml >>> 24) % 256, (ml >>> 16) % 256, (ml >>> 8) % 256, ml % 256]

/-- Big-endian 32-bit words of a byte list. -/
def bytesToWords : List Nat → List Nat
  | b0 :: b1 :: b2 :: b3 :: rest =>
    (((b0 * 256 + b1) * 256 + b2) * 256 + b3) :: bytesToWords rest
  | _ => []

/-- Chunk a word list into 16-word blocks. -/
def blocks16 : List Nat → List (List Nat)
  | w0 :: w1 :: w2 :: w3 :: w4 :: w5 :: w6 :: w7 ::
      w8 :: w9 :: w10 :: w11 :: w12 :: w13 :: w14 :: w15 :: rest =>
    [w0, w1, w2, w3, w4, w5, w6, w7, w8, w9, w10, w11, w12, w13, w14, w15] ::
      blocks16 rest
  | _ => []

/-- Big-endian bytes of a 32-bit word. -/
def wordBytes (w : Nat) : List Nat :=
  [(w >>> 24) % 256, (w >>> 16) % 256, (w >>> 8) % 256, w % 256]

/-- SHA-256 of a byte list. -/
def sha256 (msg : List Nat) : List Nat :=
  let f := (blocks16 (bytesToWords (padMessage msg))).foldl compress shaInit
  wordBytes f.sa ++ wordBytes f.sb ++ wordBytes f.sc ++ wordBytes f.sd ++
    wordBytes f.se ++ wordBytes f.sf ++ wordBytes f.sg ++ wordBytes f.sh

/-- Lowercase hex digit. -/
def hexDigit (n : Nat) : Char :=
  if n < 10 then Char.ofNat (48 + n) else Char.ofNat (87 + n)

/-- Lowercase hex string of a byte list (`hexdigest`). -/
def hexOfBytes (l : List Nat) : String :=
  String.mk (l.foldr (fun b acc => hexDigit (b / 16) :: hexDigit (b % 16) :: acc) [])

/-- HMAC-SHA256 with 64-byte block size (the stdlib `hmac` construction). -/
def hmacSha256 (key msg : List Nat) : List Nat :=
  let k0 := if 64 < key.length then sha256 key else key
  let kp := k0 ++ List.replicate (64 - k0.length) 0
  sha256 ((kp.map fun b => b ^^^ 92) ++ sha256 ((kp.map fun b => b ^^^ 54) ++ msg))

/-- UTF-8 bytes of the ASCII strings handled here. -/
def strBytes (s : String) : List Nat := s.data.map Char.toNat

/-- Known-answer check of the SHA-256 embedding on the FIPS-180 vector. -/
theorem sha256_known_answer :
    hexOfBytes (sha256 (strBytes "abc")) =
      "ba7816bf8f01cfea414140de5dae2223b00361a396177a9cb410ff61f20015ad" := rfl

/-- PanelAuthService.build_session_token. -/
def buildSessionToken (password : String) (ttl : Nat) (currentTs : Nat) : String :=
  let expRaw := toString (currentTs + ttl)
  expRaw ++ "." ++ hexOfBytes (hmacSha256 (strBytes password) (strBytes expRaw))

/-- PanelAuthService.verify_session_token: reject empty tokens, split once on
the dot, demand a decimal expiry and a non-empty signature, compare the
recomputed HMAC in full, then check the expiry against the clock. -/
def verifySessionToken (password : String) (token : String) (currentTs : Nat) : Bool :=
  if token.data.isEmpty then false
  else
    match splitOnce ['.'] token.data with
    | none => false
    | some (expRaw, signature) =>
      if !(pyIsDigit expRaw) || signature.isEmpty then false
      else
        let expected := (hexOfBytes (hmacSha256 (strBytes password)
          (expRaw.map Char.toNat))).data
        if signature = expected then decide (currentTs ≤ digitsVal expRaw)
        else false

/-- The token with its last byte bit-flipped. -/
def flipLast (s : String) : String :=
  match s.data.getLast? with
  | none => s
  | some c => String.mk (s.data.dropLast ++ [Char.ofNat (c.toNat ^^^ 1)])

/-- C9: with password "secret" and TTL 10, the token built at t=100 (the
string "110.<hex HMAC of 110>") verifies at t=109, is rejected at t=111, and
with its last signature byte flipped is rejected at t=105. -/
theorem c9_panel_session_token :
    verifySessionToken "secret" (buildSessionToken "secret" 10 100) 109 = true ∧
    verifySessionToken "secret" (buildSessionToken "secret" 10 100) 111 = false ∧
    verifySessionToken "secret"
      (flipLast (buildSessionToken "secret" 10 100)) 105 = false := by
  refine ⟨rfl, rfl, rfl⟩

/-! ## Clone engine (app/services/clone_service.py, CloneService)

The upstream Telegram clients are modelled by an outcome environment
`Env : Nat → UpRes`: each send/download call consumes the next outcome (a
threaded index), where constructor `ok`/`okPath` is an ordinary return,
`okNone` a falsy return (a failed `download_media`), `flood n` a
`FloodWaitError(n)` raise and `err` any other exception.  Flood-wait sleeps
of `n + 1` seconds are recorded in the trace.  Message history iteration
(`iter_messages`) is evaluated over an explicit chat history list, with
Telethon semantics: `min_id`/`max_id` are exclusive bounds, the default
order is newest first, and `reverse=True` yields ascending ids.
-/

/-- Telethon reply header fields used by topic extraction. -/
structure ReplyHeader where
  reply_to_top_id : Option Nat := none
  forum_topic : Bool := false
  reply_to_msg_id : Option Nat := none
deriving DecidableEq, Repr

/-- The message attributes the clone engine reads. -/
structure Msg where
  id : Nat
  chat_id : Int := 0
  grouped_id : Option Nat := none
  reply_to : Option ReplyHeader := none
  action : Bool := false
  deleted : Bool := false
  media : Bool := false
  text : String := ""
deriving DecidableEq, Repr

/-- Python truthiness of an optional integer field. -/
def truthyNat : Option Nat → Bool
  | none => false
  | some n => n ≠ 0

/-- CloneService.extract_topic_id. -/
def extract_topic_id (m : Msg) : Option Nat :=
  match m.reply_to with
  | none => none
  | some rt =>
    if truthyNat rt.reply_to_top_id then rt.reply_to_top_id
    else if rt.forum_topic && truthyNat rt.reply_to_msg_id then rt.reply_to_msg_id
    else none

/-- CloneService.in_topic. -/
def in_topic (m : Msg) (topicId : Nat) : Bool :=
  let mt := extract_topic_id m
  if mt = none && m.id = topicId then true
  else (mt.getD 0) = topicId

/-- CloneService.is_cloneable. -/
def is_cloneable (m : Msg) : Bool :=
  if m.action then false
  else if m.deleted then false
  else if m.media then true
  else !(pyStripList m.text.data).isEmpty

/-- Outcome of one upstream client call. -/
inductive UpRes
  | ok
  | okNone
  | okPath (p : Nat)
  | flood (n : Nat)
  | err
deriving DecidableEq, Repr

/-- The upstream environment: the outcome of the k-th client call. -/
def Env := Nat → UpRes

/-- Consumed-call index and recorded flood sleeps. -/
structure Trace where
  idx : Nat := 0
  sleeps : List Nat := []
deriving DecidableEq, Repr

/-- Consume one outcome. -/
def Trace.next (t : Trace) : Trace := { t with idx := t.idx + 1 }

/-- Consume one outcome and record a sleep of `n` seconds. -/
def Trace.sleep (t : Trace) (n : Nat) : Trace :=
  { idx := t.idx + 1, sleeps := t.sleeps ++ [n] }

/-- The `for _ in range(2)` loop of `_forward_ids_no_reference`: an ordinary
return is success, a flood-wait sleeps `n + 1` and retries, any other
exception returns False; falling off the loop returns False. -/
def forwardAttempts (env : Env) : Nat → Trace → Bool × Trace
  | 0, tr => (false, tr)
  | k + 1, tr =>
    match env tr.idx with
    | UpRes.flood n => forwardAttempts env k (tr.sleep (n + 1))
    | UpRes.err => (false, tr.next)
    | _ => (true, tr.next)

/-- CloneService._forward_ids_no_reference. -/
def forwardIdsNoReference (env : Env) (ids : List Nat) (tr : Trace) : Bool × Trace :=
  if ids.isEmpty then (false, tr)
  else forwardAttempts env 2 tr

/-- The `for _ in range(2)` loop of `_copy_single_message`.  For media: the
direct `send_file` falls back, on any exception, to download-and-resend
(where a download raise is caught by the outer handlers, a falsy download
returns False, a thumbnail failure just drops the thumbnail, and the
re-send distinguishes flood-wait from other errors); for plain text,
`send_message` with the same flood handling; with neither, return False. -/
def copyAttempts (env : Env) (m : Msg) : Nat → Trace → Bool × Trace
  | 0, tr => (false, tr)
  | k + 1, tr =>
    if m.media then
      match env tr.idx with
      | UpRes.flood _ =>
        -- the direct send raised; the inner handler falls back to download:
        -- a download raise reaches the outer handlers, a falsy download
        -- returns False, otherwise a thumbnail call is consumed (its outcome
        -- only decides whether a thumb is attached) and the re-send runs
        (match env tr.next.idx with
         | UpRes.flood n => copyAttempts env m k (tr.next.sleep (n + 1))
         | UpRes.err => (false, tr.next.next)
         | UpRes.okNone => (false, tr.next.next)
         | _ =>
           let tr2 := tr.next.next.next
           match env tr2.idx with
           | UpRes.flood n => copyAttempts env m k (tr2.sleep (n + 1))
           | UpRes.err => (false, tr2.next)
           | _ => (true, tr2.next))
      | UpRes.err =>
        (match env tr.next.idx with
         | UpRes.flood n => copyAttempts env m k (tr.next.sleep (n + 1))
         | UpRes.err => (false, tr.next.next)
         | UpRes.okNone => (false, tr.next.next)
         | _ =>
           let tr2 := tr.next.next.next
           match env tr2.idx with
           | UpRes.flood n => copyAttempts env m k (tr2.sleep (n + 1))
           | UpRes.err => (false, tr2.next)
           | _ => (true, tr2.next))
      | _ => (true, tr.next)
    else if !m.text.data.isEmpty then
      match env tr.idx with
      | UpRes.flood n => copyAttempts env m k (tr.sleep (n + 1))
      | UpRes.err => (false, tr.next)
      | _ => (true, tr.next)
    else (false, tr)

/-- CloneService._copy_single_message. -/
def copySingleMessage (env : Env) (m : Msg) (tr : Trace) : Bool × Trace :=
  if !(is_cloneable m) then (false, tr)
  else copyAttempts env m 2 tr

/-- CloneService.clone_message_no_reference: try an anonymised forward first
when a source chat id is known, then fall back to copying. -/
def cloneMessageNoReference (env : Env) (m : Msg) (sourceChatId : Option Int)
    (tr : Trace) : Bool × Trace :=
  if !(is_cloneable m) then (false, tr)
  else
    let sid : Int :=
      match sourceChatId with
      | some v => if v ≠ 0 then v else m.chat_id
      | none => m.chat_id
    if sid ≠ 0 then
      let rf := forwardIdsNoReference env [m.id] tr
      if rf.1 then (true, rf.2)
      else copySingleMessage env m rf.2
    else copySingleMessage env m tr

/-- iter_messages(source, min_id=a, max_id=b, limit=l): newest first over the
exclusive id range. -/
def iterDesc (hist : List Msg) (minId maxId limit : Nat) : List Msg :=
  ((hist.filter fun m => minId < m.id ∧ m.id < maxId).reverse).take limit

/-- iter_messages(source, limit=l): the newest `l` messages. -/
def iterNewest (hist : List Msg) (limit : Nat) : List Msg :=
  hist.reverse.take limit

/-- iter_messages(source, reverse=True, min_id=a): ascending ids above `a`. -/
def iterAsc (hist : List Msg) (minId : Nat) : List Msg :=
  hist.filter fun m => minId < m.id

/-- Insert-or-replace into the collected dict keyed by message id
(insertion order preserved, matching a Python dict). -/
def upsertMsg (l : List (Nat × Msg)) (m : Msg) : List (Nat × Msg) :=
  if l.any fun p => p.1 = m.id then
    l.map fun p => if p.1 = m.id then (p.1, m) else p
  else l ++ [(m.id, m)]

/-- The widened album scan: walk the newest messages, collect every message
of the group, and stop after 200 consecutive non-members once at least one
member was seen. -/
def widenScan (g : Nat) : List Msg → Nat → Bool → List (Nat × Msg) → List (Nat × Msg)
  | [], _, _, coll => coll
  | m :: rest, scanned, foundAny, coll =>
    if m.grouped_id ≠ some g then
      if foundAny && decide (200 ≤ scanned + 1) then coll
      else widenScan g rest (scanned + 1) foundAny coll
    else widenScan g rest (scanned + 1) true (upsertMsg coll m)

/-- Ascending insertion by message id (Python `sorted(..., key=id)`). -/
def insertById (m : Msg) : List Msg → List Msg
  | [] => [m]
  | x :: rest => if m.id ≤ x.id then m :: x :: rest else x :: insertById m rest

/-- Sort by message id. -/
def sortById (l : List Msg) : List Msg := l.foldr insertById []

/-- The ±window pass of `_collect_media_group_messages`: walk the id window
around the reference newest-first and collect the group members, starting
from the dict that already holds the reference itself. -/
def collectWindow (hist : List Msg) (g : Nat) (ref : Msg)
    (searchWindow : Nat) : List (Nat × Msg) :=
  (iterDesc hist (ref.id - searchWindow) (ref.id + searchWindow)
      (searchWindow * 4)).foldl
    (fun coll m => if m.grouped_id ≠ some g then coll else upsertMsg coll m)
    [(ref.id, ref)]

/-- CloneService._collect_media_group_messages: scan a ±80-id window around
the reference for members of its media group (no topic filter on siblings);
when nothing else is found, rescan the newest 1200 messages. -/
def collectMediaGroupMessages (hist : List Msg) (sourceChatId : Int)
    (topicId : Nat) (ref : Msg) (searchWindow : Nat) : List Msg :=
  match ref.grouped_id with
  | none => [ref]
  | some g =>
    if g = 0 then [ref]
    else if !(in_topic ref topicId) then []
    else
      let coll1 := collectWindow hist g ref searchWindow
      let coll2 :=
        if coll1.length ≤ 1 then widenScan g (iterNewest hist 1200) 0 false coll1
        else coll1
      sortById (coll2.map fun p => p.2)

/-- Per-message fallback of `_clone_media_group_no_reference`: forward each
id alone, then copy it, counting successes. -/
def cloneMediaGroupSingles (env : Env) : List Msg → Nat → Trace → Nat × Trace
  | [], success, tr => (success, tr)
  | m :: rest, success, tr =>
    let rf := forwardIdsNoReference env [m.id] tr
    if rf.1 then cloneMediaGroupSingles env rest (success + 1) rf.2
    else
      let rc := copySingleMessage env m rf.2
      cloneMediaGroupSingles env rest (if rc.1 then success + 1 else success) rc.2

/-- CloneService._clone_media_group_no_reference. -/
def cloneMediaGroupNoReference (env : Env) (msgs : List Msg) (tr : Trace) :
    Nat × Trace :=
  if msgs.isEmpty then (0, tr)
  else
    let rf := forwardIdsNoReference env (msgs.map fun m => m.id) tr
    if rf.1 then (msgs.length, rf.2)
    else cloneMediaGroupSingles env msgs 0 rf.2

/-- Result record of `clone_topic_history`. -/
structure CloneStats where
  total : Nat
  cloned : Nat
  skipped : Nat
  started_min_id : Nat
  last_cloned_message_id : Nat
deriving DecidableEq, Repr

/-- The raise sites of `clone_topic_history`. -/
inductive CloneErr
  | stopped
  | collectFailed
  | groupCloneFailed
  | singleCloneFailed
deriving DecidableEq, Repr

/-- One run of the history clone: the checkpoint values passed to the
progress hook, the outcome, and the consumed upstream trace. -/
structure CloneRun where
  hooks : List Nat
  res : Except CloneErr CloneStats
  tr : Trace
deriving Repr

/-- State of the history-clone loop. -/
structure LoopState where
  total : Nat := 0
  cloned : Nat := 0
  skipped : Nat := 0
  checkpoint : Nat
  pending : Nat := 0
  processedGroups : List Nat := []
  hooks : List Nat := []
  tr : Trace := {}
  stopIdx : Nat := 0
deriving DecidableEq, Repr

/-- Largest id in a message list (0 on empty). -/
def maxIdOf (l : List Msg) : Nat := l.foldl (fun acc m => max acc m.id) 0

/-- What one topic-member message did to the loop. -/
inductive UnitOutcome
  | skip
  | done
  | fail (e : CloneErr)
deriving DecidableEq, Repr

/-- The per-unit body of the history loop (the message is already known to be
in the topic): a fresh media group is collected and cloned atomically, a
repeated group is skipped, and a plain message is cloned alone; the
checkpoint advances only when the unit fully succeeds. -/
def cloneUnit (env : Env) (hist : List Msg) (source : Int) (topicId : Nat)
    (m : Msg) (s : LoopState) : LoopState × UnitOutcome :=
  if truthyNat m.grouped_id then
    let g := m.grouped_id.getD 0
    if g ∈ s.processedGroups then (s, UnitOutcome.skip)
    else
      let s1 : LoopState := { s with processedGroups := s.processedGroups ++ [g] }
      let group := collectMediaGroupMessages hist source topicId m 80
      if group.isEmpty then (s1, UnitOutcome.fail CloneErr.collectFailed)
      else
        let cloneable := group.filter is_cloneable
        let s2 : LoopState :=
          { s1 with
            total := s1.total + group.length,
            skipped := s1.skipped + (group.length - cloneable.length) }
        if cloneable.isEmpty then
          ({ s2 with checkpoint := maxIdOf group, pending := s2.pending + 1 },
            UnitOutcome.done)
        else
          let rg := cloneMediaGroupNoReference env cloneable s2.tr
          let s3 : LoopState := { s2 with tr := rg.2 }
          if rg.1 = cloneable.length then
            ({ s3 with
                cloned := s3.cloned + rg.1,
                checkpoint := maxIdOf group,
                pending := s3.pending + 1 },
              UnitOutcome.done)
          else (s3, UnitOutcome.fail CloneErr.groupCloneFailed)
  else
    let s1 : LoopState := { s with total := s.total + 1 }
    if is_cloneable m then
      let rc := cloneMessageNoReference env m (some source) s1.tr
      let s2 : LoopState := { s1 with tr := rc.2 }
      if rc.1 then
        ({ s2 with
            cloned := s2.cloned + 1,
            checkpoint := m.id,
            pending := s2.pending + 1 },
          UnitOutcome.done)
      else (s2, UnitOutcome.fail CloneErr.singleCloneFailed)
    else
      ({ s1 with
          skipped := s1.skipped + 1,
          checkpoint := m.id,
          pending := s1.pending + 1 },
        UnitOutcome.done)

/-- The iteration of `clone_topic_history`: check the stop flag, filter by
topic, run the unit, flush the checkpoint to the progress hook after every 5
units, and report the final checkpoint once more at the end. -/
def cloneLoop (env : Env) (hist : List Msg) (stopSeq : Nat → Bool)
    (source : Int) (topicId effStart : Nat) : List Msg → LoopState → CloneRun
  | [], s =>
    let hooks := if 0 < s.checkpoint then s.hooks ++ [s.checkpoint] else s.hooks
    { hooks := hooks,
      res := Except.ok
        { total := s.total, cloned := s.cloned, skipped := s.skipped,
          started_min_id := effStart, last_cloned_message_id := s.checkpoint },
      tr := s.tr }
  | m :: rest, s0 =>
    let stopped := stopSeq s0.stopIdx
    let s1 : LoopState := { s0 with stopIdx := s0.stopIdx + 1 }
    if stopped then
      { hooks := s1.hooks, res := Except.error CloneErr.stopped, tr := s1.tr }
    else if in_topic m topicId = false then
      cloneLoop env hist stopSeq source topicId effStart rest s1
    else
      match cloneUnit env hist source topicId m s1 with
      | (s2, UnitOutcome.skip) =>
        cloneLoop env hist stopSeq source topicId effStart rest s2
      | (s2, UnitOutcome.fail e) =>
        { hooks := s2.hooks, res := Except.error e, tr := s2.tr }
      | (s2, UnitOutcome.done) =>
        let s3 : LoopState :=
          if 5 ≤ s2.pending then
            { s2 with hooks := s2.hooks ++ [s2.checkpoint], pending := 0 }
          else s2
        cloneLoop env hist stopSeq source topicId effStart rest s3

/-- CloneService.clone_topic_history over a chat history and an upstream
environment; the target channel takes no part in the pure model (all sends
go through the environment) and the progress hook is the recovery worker
checkpoint writer, whose arguments are collected in `hooks`. -/
def cloneTopicHistory (env : Env) (hist : List Msg) (stopSeq : Nat → Bool)
    (sourceChatId : Int) (topicId : Nat) (targetChannel : Int)
    (startMessageId : Nat) : CloneRun :=
  let eff := max startMessageId topicId
  cloneLoop env hist stopSeq sourceChatId topicId eff (iterAsc hist eff)
    { checkpoint := eff }

/-- A non-decreasing check on the hook value sequence. -/
def nonDecreasing : List Nat → Bool
  | [] => true
  | [_] => true
  | a :: b :: rest => a ≤ b && nonDecreasing (b :: rest)

/-- Reply header marking membership of topic 1. -/
def topicReply : Option ReplyHeader := some { reply_to_top_id := some 1 }

/-- History for the C2 counterexample: nine plain topic messages around an
album whose second member (id 300) lies far outside the ±80 window, so only
the widened scan finds it. -/
def c2Hist : List Msg :=
  [{ id := 2, reply_to := topicReply, text := "a" },
   { id := 3, reply_to := topicReply, text := "a" },
   { id := 4, reply_to := topicReply, text := "a" },
   { id := 5, reply_to := topicReply, text := "a" },
   { id := 6, grouped_id := some 9, media := true, reply_to := topicReply },
   { id := 7, reply_to := topicReply, text := "a" },
   { id := 8, reply_to := topicReply, text := "a" },
   { id := 9, reply_to := topicReply, text := "a" },
   { id := 10, reply_to := topicReply, text := "a" },
   { id := 11, reply_to := topicReply, text := "a" },
   { id := 300, grouped_id := some 9, media := true }]

/-- C2: the checkpoints passed to the progress hook are not monotone.  Four
singles then the album make five units, so the hook receives the album
checkpoint 300 (the widened-scan member); the next five singles (ids 7-11)
make the hook receive 11, and the final flush repeats 11.  The run completes
without raising. -/
theorem c2_counterexample :
    (cloneTopicHistory (fun _ => UpRes.ok) c2Hist (fun _ => false)
      (-100) 1 (-200) 0).hooks = [300, 11, 11] ∧
    nonDecreasing (cloneTopicHistory (fun _ => UpRes.ok) c2Hist (fun _ => false)
      (-100) 1 (-200) 0).hooks = false ∧
    (cloneTopicHistory (fun _ => UpRes.ok) c2Hist (fun _ => false)
      (-100) 1 (-200) 0).res =
      Except.ok
        { total := 11, cloned := 11, skipped := 0, started_min_id := 1,
          last_cloned_message_id := 11 } := by
  refine ⟨by decide, by decide, rfl⟩

/-- History for the C3 counterexample: one message that is not in topic 10. -/
def c3Hist : List Msg := [{ id := 100, text := "a" }]

/-- C3: a completed run whose returned checkpoint is below the highest
iterator id.  Message 100 is yielded by the iterator but is not a member of
topic 10, so the checkpoint never advances past the effective start 10, while
`max(effectiveStart, highest yielded id)` is 100. -/
theorem c3_counterexample :
    (cloneTopicHistory (fun _ => UpRes.ok) c3Hist (fun _ => false)
      (-100) 10 (-200) 0).res =
      Except.ok
        { total := 0, cloned := 0, skipped := 0, started_min_id := 10,
          last_cloned_message_id := 10 } ∧
    (iterAsc c3Hist 10).map (fun m => m.id) = [100] ∧
    in_topic { id := 100, text := "a" } 10 = false ∧
    (10 : Nat) < 100 := by
  refine ⟨rfl, by decide, by decide, by decide⟩

/-- C5: two consecutive flood-wait signals at one call site do not surface:
both call sites sleep `n + 1` for each signal and then return False —
converting the second signal into the silent failure return that the claim
rules out.  The run consumes exactly the two outcomes. -/
theorem c5_counterexample :
    forwardIdsNoReference
      (fun k => if k = 0 then UpRes.flood 3 else UpRes.flood 7) [5] {} =
      (false, { idx := 2, sleeps := [4, 8] }) ∧
    copySingleMessage
      (fun k => if k = 0 then UpRes.flood 3 else UpRes.flood 7)
      { id := 7, text := "hi" } {} =
      (false, { idx := 2, sleeps := [4, 8] }) := by
  refine ⟨rfl, rfl⟩

/-- C5 (amended): on a flood-wait signal with delay `n` the call site sleeps
`n + 1` seconds and retries exactly once; a successful retry returns True,
while a second flood-wait is also absorbed — the site sleeps `m + 1` again
and returns False instead of letting the signal surface. -/
theorem floodWait_retry_spec :
    (∀ n i : Nat,
      forwardIdsNoReference (fun k => if k = 0 then UpRes.flood n else UpRes.ok)
        [i] {} = (true, { idx := 2, sleeps := [n + 1] })) ∧
    (∀ n m i : Nat,
      forwardIdsNoReference
        (fun k => if k = 0 then UpRes.flood n else UpRes.flood m) [i] {} =
        (false, { idx := 2, sleeps := [n + 1, m + 1] })) ∧
    (∀ n : Nat,
      copySingleMessage (fun k => if k = 0 then UpRes.flood n else UpRes.ok)
        { id := 7, text := "hi" } {} = (true, { idx := 2, sleeps := [n + 1] })) ∧
    (∀ n m : Nat,
      copySingleMessage
        (fun k => if k = 0 then UpRes.flood n else UpRes.flood m)
        { id := 7, text := "hi" } {} =
        (false, { idx := 2, sleeps := [n + 1, m + 1] })) := by
  refine ⟨fun n i => rfl, fun n m i => rfl, fun n => rfl, fun n m => rfl⟩

/-- Appending a value at least as large as every element keeps the hook
sequence non-decreasing. -/
theorem nonDecreasing_append {x : Nat} :
    ∀ {l : List Nat}, nonDecreasing l = true → (∀ y ∈ l, y ≤ x) →
      nonDecreasing (l ++ [x]) = true := by
  intro l
  induction l with
  | nil => intro _ _; rfl
  | cons a rest ih =>
    intro hl hx
    cases rest with
    | nil =>
      show (decide (a ≤ x) && nonDecreasing [x]) = true
      simp only [nonDecreasing, Bool.and_true]
      exact decide_eq_true (hx a (List.mem_singleton_self a))
    | cons b rest2 =>
      rw [nonDecreasing] at hl
      simp only [Bool.and_eq_true, decide_eq_true_eq] at hl
      obtain ⟨hab, hbr⟩ := hl
      have hrec := ih hbr (fun y hy => hx y (List.mem_cons_of_mem a hy))
      show nonDecreasing (a :: b :: (rest2 ++ [x])) = true
      rw [nonDecreasing]
      simp only [Bool.and_eq_true, decide_eq_true_eq]
      exact ⟨hab, hrec⟩

/-- The running maximum of `maxIdOf` never drops below its seed. -/
theorem foldl_max_ge_acc :
    ∀ (l : List Msg) (acc : Nat), acc ≤ l.foldl (fun a m => max a m.id) acc
  | [], acc => le_refl acc
  | m :: rest, acc =>
    le_trans (le_max_left acc m.id) (foldl_max_ge_acc rest (max acc m.id))

/-- Every member's id bounds the running maximum from below. -/
theorem le_foldl_max {x : Msg} :
    ∀ {l : List Msg} (acc : Nat), x ∈ l →
      x.id ≤ l.foldl (fun a m => max a m.id) acc := by
  intro l
  induction l with
  | nil => intro acc h; exact absurd h (List.not_mem_nil x)
  | cons m rest ih =>
    intro acc h
    rcases List.mem_cons.mp h with he | hm
    · rw [List.foldl_cons]
      exact le_trans (he ▸ le_max_right acc m.id)
        (foldl_max_ge_acc rest (max acc m.id))
    · rw [List.foldl_cons]
      exact ih (max acc m.id) hm

/-- `maxIdOf` dominates every member id. -/
theorem le_maxIdOf {x : Msg} {l : List Msg} (h : x ∈ l) : x.id ≤ maxIdOf l :=
  le_foldl_max 0 h

/-- Insertion keeps old members. -/
theorem mem_insertById_of_mem {x m : Msg} :
    ∀ {l : List Msg}, x ∈ l → x ∈ insertById m l := by
  intro l
  induction l with
  | nil => intro h; exact absurd h (List.not_mem_nil x)
  | cons a rest ih =>
    intro h
    rw [insertById]
    by_cases hle : m.id ≤ a.id
    · rw [if_pos hle]; exact List.mem_cons_of_mem m h
    · rw [if_neg hle]
      rcases List.mem_cons.mp h with he | hm
      · rw [he]; exact List.mem_cons_self a _
      · exact List.mem_cons_of_mem a (ih hm)

/-- Insertion adds the inserted message. -/
theorem self_mem_insertById (m : Msg) : ∀ (l : List Msg), m ∈ insertById m l
  | [] => List.mem_singleton_self m
  | a :: rest => by
    rw [insertById]
    by_cases hle : m.id ≤ a.id
    · rw [if_pos hle]; exact List.mem_cons_self m _
    · rw [if_neg hle]; exact List.mem_cons_of_mem a (self_mem_insertById m rest)

/-- Sorting by id preserves membership. -/
theorem mem_sortById {x : Msg} : ∀ {l : List Msg}, x ∈ l → x ∈ sortById l := by
  intro l
  induction l with
  | nil => intro h; exact absurd h (List.not_mem_nil x)
  | cons a rest ih =>
    intro h
    rcases List.mem_cons.mp h with he | hm
    · rw [he]; exact self_mem_insertById a (sortById rest)
    · exact mem_insertById_of_mem (ih hm)

/-- The collected dict keeps a pair whose key and value id are the reference
id through any upsert. -/
theorem upsertMsg_preserve {l : List (Nat × Msg)} {r : Nat} (m : Msg)
    (h : ∃ p ∈ l, p.1 = r ∧ p.2.id = r) :
    ∃ p ∈ upsertMsg l m, p.1 = r ∧ p.2.id = r := by
  obtain ⟨p, hp, hk, hi⟩ := h
  rw [upsertMsg]
  by_cases ha : (l.any fun p => p.1 = m.id) = true
  · rw [if_pos ha]
    by_cases hpm : p.1 = m.id
    · have hm : (fun q : Nat × Msg => if q.1 = m.id then (q.1, m) else q) p
          = (p.1, m) := by
        simp [hpm]
      refine ⟨(p.1, m), ?_, hk, ?_⟩
      · rw [← hm]; exact List.mem_map_of_mem _ hp
      · show m.id = r
        rw [← hpm]; exact hk
    · have hm : (fun q : Nat × Msg => if q.1 = m.id then (q.1, m) else q) p
          = p := by
        simp [hpm]
      refine ⟨p, ?_, hk, hi⟩
      rw [← hm]; exact List.mem_map_of_mem _ hp
  · rw [if_neg ha]
    exact ⟨p, List.mem_append_left _ hp, hk, hi⟩

/-- The window fold of the album scan preserves the reference pair. -/
theorem foldl_collect_preserve (g : Nat) {r : Nat} :
    ∀ (msgs : List Msg) (coll : List (Nat × Msg)),
      (∃ p ∈ coll, p.1 = r ∧ p.2.id = r) →
      ∃ p ∈ msgs.foldl
          (fun coll m => if m.grouped_id ≠ some g then coll
            else upsertMsg coll m) coll,
        p.1 = r ∧ p.2.id = r := by
  intro msgs
  induction msgs with
  | nil => intro coll h; exact h
  | cons m rest ih =>
    intro coll h
    rw [List.foldl_cons]
    by_cases hgm : m.grouped_id ≠ some g
    · rw [if_pos hgm]; exact ih _ h
    · rw [if_neg hgm]; exact ih _ (upsertMsg_preserve m h)

/-- The widened album scan preserves the reference pair. -/
theorem widenScan_preserve (g : Nat) {r : Nat} :
    ∀ (msgs : List Msg) (scanned : Nat) (foundAny : Bool)
      (coll : List (Nat × Msg)),
      (∃ p ∈ coll, p.1 = r ∧ p.2.id = r) →
      ∃ p ∈ widenScan g msgs scanned foundAny coll, p.1 = r ∧ p.2.id = r := by
  intro msgs
  induction msgs with
  | nil => intro scanned foundAny coll h; exact h
  | cons m rest ih =>
    intro scanned foundAny coll h
    rw [widenScan]
    by_cases hgm : m.grouped_id ≠ some g
    · rw [if_pos hgm]
      by_cases hstop : (foundAny && decide (200 ≤ scanned + 1)) = true
      · rw [if_pos hstop]; exact h
      · rw [if_neg hstop]; exact ih _ _ _ h
    · rw [if_neg hgm]; exact ih _ _ _ (upsertMsg_preserve m h)

/-- The dict pipeline of the album scan yields some message carrying the
reference id. -/
theorem collect_dict_result {r : Nat} (coll1 : List (Nat × Msg)) (g : Nat)
    (hist : List Msg) (h : ∃ p ∈ coll1, p.1 = r ∧ p.2.id = r) :
    ∃ x ∈ sortById
        ((if coll1.length ≤ 1
          then widenScan g (iterNewest hist 1200) 0 false coll1
          else coll1).map fun p => p.2),
      x.id = r := by
  have h2 : ∃ p ∈ (if coll1.length ≤ 1
      then widenScan g (iterNewest hist 1200) 0 false coll1 else coll1),
      p.1 = r ∧ p.2.id = r := by
    by_cases hlen : coll1.length ≤ 1
    · rw [if_pos hlen]; exact widenScan_preserve g _ _ _ _ h
    · rw [if_neg hlen]; exact h
  obtain ⟨p, hp, _, hi⟩ := h2
  exact ⟨p.2, mem_sortById (List.mem_map_of_mem _ hp), hi⟩

/-- The album collector always returns a message with the reference's own id
when the reference is a member of the topic. -/
theorem collect_contains_ref (hist : List Msg) (src : Int) (tid : Nat)
    (ref : Msg) (w : Nat) (ht : in_topic ref tid = true) :
    ∃ x ∈ collectMediaGroupMessages hist src tid ref w, x.id = ref.id := by
  cases hg : ref.grouped_id with
  | none =>
    refine ⟨ref, ?_, rfl⟩
    rw [collectMediaGroupMessages, hg]
    exact List.mem_singleton_self ref
  | some g =>
    by_cases hz : g = 0
    · refine ⟨ref, ?_, rfl⟩
      rw [collectMediaGroupMessages, hg]
      show ref ∈ if g = 0 then [ref] else _
      rw [if_pos hz]
      exact List.mem_singleton_self ref
    · have hbase : ∃ p ∈ ([(ref.id, ref)] : List (Nat × Msg)),
          p.1 = ref.id ∧ p.2.id = ref.id :=
        ⟨(ref.id, ref), List.mem_singleton_self _, rfl, rfl⟩
      have h1 : ∃ p ∈ collectWindow hist g ref w,
          p.1 = ref.id ∧ p.2.id = ref.id :=
        foldl_collect_preserve g _ _ hbase
      have h2 := collect_dict_result (collectWindow hist g ref w) g hist h1
      rw [collectMediaGroupMessages, hg]
      show ∃ x ∈ (if g = 0 then [ref]
          else if (!(in_topic ref tid)) = true then []
          else sortById
            ((if (collectWindow hist g ref w).length ≤ 1
              then widenScan g (iterNewest hist 1200) 0 false
                (collectWindow hist g ref w)
              else collectWindow hist g ref w).map fun p => p.2)),
        x.id = ref.id
      rw [if_neg hz, ht]
      simp only [Bool.not_true]
      rw [if_neg Bool.false_ne_true]
      exact h2

/-- The loop unit never touches the hook list. -/
theorem cloneUnit_hooks (env : Env) (hist : List Msg) (source : Int)
    (topicId : Nat) (m : Msg) (s : LoopState) :
    (cloneUnit env hist source topicId m s).1.hooks = s.hooks := by
  simp only [cloneUnit]
  split_ifs <;> rfl

/-- A skipped unit leaves the state unchanged. -/
theorem cloneUnit_skip_eq (env : Env) (hist : List Msg) (source : Int)
    (topicId : Nat) (m : Msg) (s : LoopState)
    (h : (cloneUnit env hist source topicId m s).2 = UnitOutcome.skip) :
    (cloneUnit env hist source topicId m s).1 = s := by
  simp only [cloneUnit] at h ⊢
  split_ifs at h ⊢ <;> first | rfl | simp at h

/-- A completed unit moves the checkpoint to at least the message's own id
(for an album, to the collected group's maximum id, which the collector
guarantees reaches the reference id). -/
theorem cloneUnit_done_checkpoint (env : Env) (hist : List Msg) (source : Int)
    (topicId : Nat) (m : Msg) (s : LoopState)
    (ht : in_topic m topicId = true)
    (hd : (cloneUnit env hist source topicId m s).2 = UnitOutcome.done) :
    m.id ≤ (cloneUnit env hist source topicId m s).1.checkpoint := by
  simp only [cloneUnit] at hd ⊢
  split_ifs at hd ⊢ <;>
    first
      | exact le_refl m.id
      | (obtain ⟨x, hx, hxid⟩ :=
          collect_contains_ref hist source topicId m 80 ht
         exact hxid ▸ le_maxIdOf hx)
      | simp at hd

/-- For a message outside any media group the unit never skips, keeps the
hook list, and on success sets the checkpoint to exactly the message id. -/
theorem cloneUnit_no_group (env : Env) (hist : List Msg) (source : Int)
    (topicId : Nat) (m : Msg) (s : LoopState)
    (hg : truthyNat m.grouped_id = false) :
    (cloneUnit env hist source topicId m s).2 ≠ UnitOutcome.skip ∧
    ((cloneUnit env hist source topicId m s).2 = UnitOutcome.done →
      (cloneUnit env hist source topicId m s).1.checkpoint = m.id) := by
  simp only [cloneUnit, hg, Bool.false_eq_true, if_false]
  split_ifs <;> exact ⟨by simp, by simp⟩

/-- Any completed history-clone loop returns a checkpoint at least the
starting one and reports the effective start verbatim, as long as every
pending message id exceeds the effective start. -/
theorem cloneLoop_ok_spec (env : Env) (hist : List Msg) (stopSeq : Nat → Bool)
    (source : Int) (topicId effStart : Nat) :
    ∀ (msgs : List Msg) (s : LoopState),
      effStart ≤ s.checkpoint →
      (∀ m ∈ msgs, effStart < m.id) →
      ∀ stats,
        (cloneLoop env hist stopSeq source topicId effStart msgs s).res =
          Except.ok stats →
        effStart ≤ stats.last_cloned_message_id ∧
        stats.started_min_id = effStart := by
  intro msgs
  induction msgs with
  | nil =>
    intro s hcp _ stats hres
    simp only [cloneLoop, Except.ok.injEq] at hres
    rw [← hres]
    exact ⟨hcp, rfl⟩
  | cons m rest ih =>
    intro s hcp hids stats hres
    simp only [cloneLoop] at hres
    by_cases hstop : stopSeq s.stopIdx = true
    · rw [if_pos hstop] at hres
      simp at hres
    · rw [if_neg hstop] at hres
      by_cases htp : in_topic m topicId = false
      · rw [if_pos htp] at hres
        exact ih { s with stopIdx := s.stopIdx + 1 } hcp
          (fun m' hm' => hids m' (List.mem_cons_of_mem m hm')) stats hres
      · rw [if_neg htp] at hres
        have htpt : in_topic m topicId = true := by
          revert htp
          cases in_topic m topicId <;> simp
        rcases hcu : cloneUnit env hist source topicId m
            { s with stopIdx := s.stopIdx + 1 } with ⟨s2, oc⟩
        cases oc with
        | skip =>
          simp only [hcu] at hres
          have hs2 : s2 = { s with stopIdx := s.stopIdx + 1 } := by
            have h := cloneUnit_skip_eq env hist source topicId m
              { s with stopIdx := s.stopIdx + 1 } (by rw [hcu])
            rw [hcu] at h
            exact h
          refine ih s2 ?_ (fun m' hm' => hids m' (List.mem_cons_of_mem m hm'))
            stats hres
          rw [hs2]
          exact hcp
        | fail e =>
          simp only [hcu] at hres
          simp at hres
        | done =>
          simp only [hcu] at hres
          have hdc : m.id ≤ s2.checkpoint := by
            have h := cloneUnit_done_checkpoint env hist source topicId m
              { s with stopIdx := s.stopIdx + 1 } htpt (by rw [hcu])
            rw [hcu] at h
            exact h
          have heff : effStart ≤ s2.checkpoint :=
            le_trans (le_of_lt (hids m (List.mem_cons_self m rest))) hdc
          by_cases hp : 5 ≤ s2.pending
          · rw [if_pos hp] at hres
            exact ih
              { s2 with
                hooks := s2.hooks ++ [s2.checkpoint]
                pending := 0 }
              heff
              (fun m' hm' => hids m' (List.mem_cons_of_mem m hm')) stats hres
          · rw [if_neg hp] at hres
            exact ih s2 heff
              (fun m' hm' => hids m' (List.mem_cons_of_mem m hm')) stats hres

/-- The history-clone loop over ascending, group-free messages keeps the hook
sequence non-decreasing, and on completion its checkpoint dominates both the
starting checkpoint and every topic-member id it processed. -/
theorem cloneLoop_no_group_spec (env : Env) (hist : List Msg)
    (stopSeq : Nat → Bool) (source : Int) (topicId effStart : Nat) :
    ∀ (msgs : List Msg) (s : LoopState),
      List.Pairwise (fun a b : Msg => a.id < b.id) msgs →
      (∀ m ∈ msgs, truthyNat m.grouped_id = false) →
      (∀ m ∈ msgs, s.checkpoint < m.id) →
      nonDecreasing s.hooks = true →
      (∀ x ∈ s.hooks, x ≤ s.checkpoint) →
      nonDecreasing
          (cloneLoop env hist stopSeq source topicId effStart msgs s).hooks
        = true ∧
      ∀ stats,
        (cloneLoop env hist stopSeq source topicId effStart msgs s).res =
          Except.ok stats →
        s.checkpoint ≤ stats.last_cloned_message_id ∧
        ∀ m ∈ msgs, in_topic m topicId = true →
          m.id ≤ stats.last_cloned_message_id := by
  intro msgs
  induction msgs with
  | nil =>
    intro s _ _ _ hchain hhb
    constructor
    · simp only [cloneLoop]
      by_cases hcp : 0 < s.checkpoint
      · rw [if_pos hcp]
        exact nonDecreasing_append hchain hhb
      · rw [if_neg hcp]
        exact hchain
    · intro stats hres
      simp only [cloneLoop, Except.ok.injEq] at hres
      rw [← hres]
      exact ⟨le_refl _, fun m hm _ => absurd hm (List.not_mem_nil m)⟩
  | cons m rest ih =>
    intro s hpw hng hbound hchain hhb
    obtain ⟨hheadlt, hpwrest⟩ := List.pairwise_cons.mp hpw
    have hngrest : ∀ m' ∈ rest, truthyNat m'.grouped_id = false :=
      fun m' hm' => hng m' (List.mem_cons_of_mem m hm')
    have hlt : s.checkpoint < m.id := hbound m (List.mem_cons_self m rest)
    simp only [cloneLoop]
    by_cases hstop : stopSeq s.stopIdx = true
    · rw [if_pos hstop]
      constructor
      · exact hchain
      · intro stats hres
        simp at hres
    · rw [if_neg hstop]
      by_cases htp : in_topic m topicId = false
      · rw [if_pos htp]
        have ih' := ih { s with stopIdx := s.stopIdx + 1 } hpwrest hngrest
          (fun m' hm' => hbound m' (List.mem_cons_of_mem m hm')) hchain hhb
        refine ⟨ih'.1, ?_⟩
        intro stats hres
        obtain ⟨hle, hall⟩ := ih'.2 stats hres
        refine ⟨hle, ?_⟩
        intro m'' hm'' htp''
        rcases List.mem_cons.mp hm'' with he | hm2
        · rw [he, htp] at htp''
          exact absurd htp'' Bool.false_ne_true
        · exact hall m'' hm2 htp''
      · rw [if_neg htp]
        rcases hcu : cloneUnit env hist source topicId m
            { s with stopIdx := s.stopIdx + 1 } with ⟨s2, oc⟩
        have hhk : s2.hooks = s.hooks := by
          have h := cloneUnit_hooks env hist source topicId m
            { s with stopIdx := s.stopIdx + 1 }
          rw [hcu] at h
          exact h
        have hnos := cloneUnit_no_group env hist source topicId m
          { s with stopIdx := s.stopIdx + 1 }
          (hng m (List.mem_cons_self m rest))
        rw [hcu] at hnos
        cases oc with
        | skip => exact absurd rfl hnos.1
        | fail e =>
          simp only [hcu]
          constructor
          · show nonDecreasing s2.hooks = true
            rw [hhk]
            exact hchain
          · intro stats hres
            simp at hres
        | done =>
          simp only [hcu]
          have hcp2 : s2.checkpoint = m.id := hnos.2 rfl
          by_cases hp : 5 ≤ s2.pending
          · rw [if_pos hp]
            have ih' := ih
              { s2 with
                hooks := s2.hooks ++ [s2.checkpoint]
                pending := 0 }
              hpwrest hngrest
              (fun m' hm' => by
                show s2.checkpoint < m'.id
                rw [hcp2]
                exact hheadlt m' hm')
              (by
                show nonDecreasing (s2.hooks ++ [s2.checkpoint]) = true
                rw [hhk, hcp2]
                exact nonDecreasing_append hchain
                  (fun y hy => le_of_lt (lt_of_le_of_lt (hhb y hy) hlt)))
              (by
                intro x hx
                have hx' : x ∈ s2.hooks ++ [s2.checkpoint] := hx
                show x ≤ s2.checkpoint
                rcases List.mem_append.mp hx' with h1 | h2
                · rw [hhk] at h1
                  rw [hcp2]
                  exact le_of_lt (lt_of_le_of_lt (hhb x h1) hlt)
                · rw [List.mem_singleton.mp h2])
            refine ⟨ih'.1, ?_⟩
            intro stats hres
            obtain ⟨hle, hall⟩ := ih'.2 stats hres
            have hle2 : s2.checkpoint ≤ stats.last_cloned_message_id := hle
            refine ⟨le_trans (le_of_lt (hcp2.symm ▸ hlt)) hle2, ?_⟩
            intro m'' hm'' _
            rcases List.mem_cons.mp hm'' with he | hm2
            · rw [he, ← hcp2]
              exact hle2
            · exact hall m'' hm2 (by assumption)
          · rw [if_neg hp]
            have ih' := ih s2 hpwrest hngrest
              (fun m' hm' => by
                rw [hcp2]
                exact hheadlt m' hm')
              (by rw [hhk]; exact hchain)
              (fun x hx => by
                rw [hcp2]
                have hx' : x ∈ s.hooks := hhk ▸ hx
                exact le_of_lt (lt_of_le_of_lt (hhb x hx') hlt))
            refine ⟨ih'.1, ?_⟩
            intro stats hres
            obtain ⟨hle, hall⟩ := ih'.2 stats hres
            refine ⟨le_trans (le_of_lt (hcp2.symm ▸ hlt)) hle, ?_⟩
            intro m'' hm'' htp''
            rcases List.mem_cons.mp hm'' with he | hm2
            · rw [he, ← hcp2]
              exact hle
            · exact hall m'' hm2 htp''

/-- Every message the ascending iterator yields has an id above the bound. -/
theorem iterAsc_id_gt {hist : List Msg} {minId : Nat} :
    ∀ m ∈ iterAsc hist minId, minId < m.id := by
  intro m hm
  simp only [iterAsc, List.mem_filter, decide_eq_true_eq] at hm
  exact hm.2

/-- C2 (amended): within one run of `clone_topic_history` the checkpoint
values passed to the progress hook are monotonically non-decreasing provided
no yielded message carries a media group id and the iterator yields ids in
strictly ascending order (as `iter_messages(reverse=True)` does); with media
groups the widened album scan can raise the checkpoint above ids the
iterator yields later, breaking monotonicity. -/
theorem cloneTopicHistory_hooks_monotone (env : Env) (hist : List Msg)
    (stopSeq : Nat → Bool) (sourceChatId : Int) (topicId : Nat)
    (targetChannel : Int) (startMessageId : Nat)
    (hpw : List.Pairwise (fun a b : Msg => a.id < b.id)
      (iterAsc hist (max startMessageId topicId)))
    (hng : ∀ m ∈ iterAsc hist (max startMessageId topicId),
      truthyNat m.grouped_id = false) :
    nonDecreasing (cloneTopicHistory env hist stopSeq sourceChatId topicId
        targetChannel startMessageId).hooks = true :=
  (cloneLoop_no_group_spec env hist stopSeq sourceChatId topicId
    (max startMessageId topicId) (iterAsc hist (max startMessageId topicId))
    { checkpoint := max startMessageId topicId } hpw hng iterAsc_id_gt rfl
    (fun x hx => absurd hx (List.not_mem_nil x))).1

/-- C2 witness history: two group-free topic messages. -/
def c2WitnessHist : List Msg :=
  [{ id := 2, reply_to := topicReply, text := "a" },
   { id := 3, reply_to := topicReply, text := "a" }]

theorem cloneTopicHistory_hooks_monotone_witness :
    nonDecreasing (cloneTopicHistory (fun _ => UpRes.ok) c2WitnessHist
        (fun _ => false) (-100) 1 (-200) 0).hooks = true :=
  cloneTopicHistory_hooks_monotone (fun _ => UpRes.ok) c2WitnessHist
    (fun _ => false) (-100) 1 (-200) 0 (by decide) (by decide)

/-- C3 (amended): a completed run returns `last_cloned_message_id` at least
`max(requestedStartMsgId, topicId)` and reports that effective start as
`started_min_id`; and when the yielded messages are ascending and group-free
the result also dominates every yielded id that belongs to the topic.  The
unconditional bound over all yielded ids is refuted by the counterexample:
ids outside the topic never advance the checkpoint. -/
theorem cloneTopicHistory_last_spec (env : Env) (hist : List Msg)
    (stopSeq : Nat → Bool) (sourceChatId : Int) (topicId : Nat)
    (targetChannel : Int) (startMessageId : Nat) (stats : CloneStats)
    (hok : (cloneTopicHistory env hist stopSeq sourceChatId topicId
        targetChannel startMessageId).res = Except.ok stats) :
    max startMessageId topicId ≤ stats.last_cloned_message_id ∧
    stats.started_min_id = max startMessageId topicId ∧
    (List.Pairwise (fun a b : Msg => a.id < b.id)
        (iterAsc hist (max startMessageId topicId)) →
     (∀ m ∈ iterAsc hist (max startMessageId topicId),
        truthyNat m.grouped_id = false) →
     ∀ m ∈ iterAsc hist (max startMessageId topicId),
       in_topic m topicId = true → m.id ≤ stats.last_cloned_message_id) := by
  have hok' : (cloneLoop env hist stopSeq sourceChatId topicId
      (max startMessageId topicId)
      (iterAsc hist (max startMessageId topicId))
      { checkpoint := max startMessageId topicId }).res = Except.ok stats :=
    hok
  have h1 := cloneLoop_ok_spec env hist stopSeq sourceChatId topicId
    (max startMessageId topicId) (iterAsc hist (max startMessageId topicId))
    { checkpoint := max startMessageId topicId } (le_refl _) iterAsc_id_gt
    stats hok'
  refine ⟨h1.1, h1.2, ?_⟩
  intro hpw hng
  have h2 := cloneLoop_no_group_spec env hist stopSeq sourceChatId topicId
    (max startMessageId topicId) (iterAsc hist (max startMessageId topicId))
    { checkpoint := max startMessageId topicId } hpw hng iterAsc_id_gt rfl
    (fun x hx => absurd hx (List.not_mem_nil x))
  exact fun m hm ht => ((h2.2 stats hok').2) m hm ht

/-- The statistics of the C3 witness run. -/
def c3WitnessStats : CloneStats :=
  { total := 0, cloned := 0, skipped := 0, started_min_id := 10,
    last_cloned_message_id := 10 }

theorem cloneTopicHistory_last_spec_witness :
    max 0 10 ≤ c3WitnessStats.last_cloned_message_id ∧
    c3WitnessStats.started_min_id = max 0 10 ∧
    (List.Pairwise (fun a b : Msg => a.id < b.id) (iterAsc c3Hist (max 0 10)) →
     (∀ m ∈ iterAsc c3Hist (max 0 10), truthyNat m.grouped_id = false) →
     ∀ m ∈ iterAsc c3Hist (max 0 10), in_topic m 10 = true →
       m.id ≤ c3WitnessStats.last_cloned_message_id) :=
  cloneTopicHistory_last_spec (fun _ => UpRes.ok) c3Hist (fun _ => false)
    (-100) 10 (-200) 0 c3WitnessStats rfl

/-- With an upstream that answers every call with an exception or a
flood-wait, the forward loop returns False: it never re-raises. -/
theorem forwardAttempts_err (env : Env)
    (herr : ∀ k, env k = UpRes.err ∨ ∃ n, env k = UpRes.flood n) :
    ∀ (fuel : Nat) (tr : Trace), (forwardAttempts env fuel tr).1 = false := by
  intro fuel
  induction fuel with
  | zero => intro tr; rfl
  | succ k ih =>
    intro tr
    rcases herr tr.idx with he | ⟨n, hf⟩
    · simp only [forwardAttempts, he]
    · simp only [forwardAttempts, hf]
      exact ih _

/-- With an all-failing upstream the copy loop returns False on every path
(direct send, download fallback, re-send, plain text): it never re-raises. -/
theorem copyAttempts_err (env : Env)
    (herr : ∀ k, env k = UpRes.err ∨ ∃ n, env k = UpRes.flood n) (m : Msg) :
    ∀ (fuel : Nat) (tr : Trace), (copyAttempts env m fuel tr).1 = false := by
  intro fuel
  induction fuel with
  | zero => intro tr; rfl
  | succ k ih =>
    intro tr
    by_cases hm : m.media = true
    · rcases herr tr.idx with he | ⟨n, hf⟩
      · rcases herr tr.next.idx with he2 | ⟨n2, hf2⟩
        · simp [copyAttempts, hm, he, he2]
        · simp [copyAttempts, hm, he, hf2]
          exact ih _
      · rcases herr tr.next.idx with he2 | ⟨n2, hf2⟩
        · simp [copyAttempts, hm, hf, he2]
        · simp [copyAttempts, hm, hf, hf2]
          exact ih _
    · have hm' : m.media = false := by
        revert hm
        cases m.media <;> simp
      by_cases ht : m.text.data.isEmpty = true
      · simp [copyAttempts, hm', ht]
      · have ht' : m.text.data.isEmpty = false := by
          revert ht
          cases m.text.data.isEmpty <;> simp
        rcases herr tr.idx with he | ⟨n, hf⟩
        · simp [copyAttempts, hm', ht', he]
        · simp [copyAttempts, hm', ht', hf]
          exact ih _

/-- With an all-failing upstream the single-message copy returns False. -/
theorem copySingleMessage_err (env : Env)
    (herr : ∀ k, env k = UpRes.err ∨ ∃ n, env k = UpRes.flood n) (m : Msg)
    (tr : Trace) : (copySingleMessage env m tr).1 = false := by
  rw [copySingleMessage]
  by_cases hc : is_cloneable m = true
  · rw [hc]
    simp only [Bool.not_true]
    rw [if_neg Bool.false_ne_true]
    exact copyAttempts_err env herr m 2 tr
  · have hc' : is_cloneable m = false := by
      revert hc
      cases is_cloneable m <;> simp
    rw [hc']
    simp only [Bool.not_false]
    rw [if_pos trivial]

/-- With an all-failing upstream the forward wrapper returns False. -/
theorem forwardIdsNoReference_err (env : Env)
    (herr : ∀ k, env k = UpRes.err ∨ ∃ n, env k = UpRes.flood n)
    (ids : List Nat) (tr : Trace) :
    (forwardIdsNoReference env ids tr).1 = false := by
  rw [forwardIdsNoReference]
  by_cases hi : ids.isEmpty = true
  · rw [if_pos hi]
  · rw [if_neg hi]
    exact forwardAttempts_err env herr 2 tr

/-- A source-group row as the listener reads it. -/
structure SourceGroupRow where
  id : Nat
  chat_id : Int
  enabled : Int := 1
deriving DecidableEq, Repr

/-- A topic row as the listener reads it. -/
structure TopicRow where
  source_group_id : Nat
  topic_id : Nat
  enabled : Int := 1
deriving DecidableEq, Repr

/-- The listener's view of the database: the lookup tables it reads plus the
tables its channel-unavailable branch would write (banned channels and the
recovery queue). -/
structure ListenerDb where
  source_groups : List SourceGroupRow := []
  topics : List TopicRow := []
  bindings : List BindingRow := []
  bannedCalls : List (Nat × Nat × Int × String) := []
  queue : QueueState := {}
deriving DecidableEq, Repr

/-- Database.get_source_group_by_chat_id. -/
def getSourceGroupByChatId (db : ListenerDb) (chatId : Int) :
    Option SourceGroupRow :=
  db.source_groups.find? fun r => r.chat_id = chatId

/-- Database.get_topic. -/
def getTopic (db : ListenerDb) (sgId topicId : Nat) : Option TopicRow :=
  db.topics.find? fun r => r.source_group_id = sgId ∧ r.topic_id = topicId

/-- Database.get_binding. -/
def getBinding (db : ListenerDb) (sgId topicId : Nat) : Option BindingRow :=
  db.bindings.find? fun r => r.source_group_id = sgId ∧ r.topic_id = topicId

/-- ListenerService.on_new_message.  The clone call at the heart of the
handler is the embedded `cloneMessageNoReference`, a total function into
`Bool × Trace` — every upstream failure inside it is already converted to a
False return, so the surrounding channel-unavailable handler (ban + enqueue
+ notify, listener_service.py:69-89) has no raise site left to catch; its
writes are recorded in `bannedCalls`/`queue` precisely so that their
absence is statable. -/
def onNewMessage (env : Env) (db : ListenerDb) (eventChatId : Int) (m : Msg)
    (tr : Trace) : ListenerDb × Trace :=
  if eventChatId = 0 then (db, tr)
  else
    match getSourceGroupByChatId db eventChatId with
    | none => (db, tr)
    | some sg =>
      if sg.enabled ≠ 1 then (db, tr)
      else
        let topicId := (extract_topic_id m).getD m.id
        if topicId = 0 then (db, tr)
        else
          match getTopic db sg.id topicId with
          | none => (db, tr)
          | some t =>
            if t.enabled ≠ 1 then (db, tr)
            else
              match getBinding db sg.id topicId with
              | none => (db, tr)
              | some b =>
                if !b.active then (db, tr)
                else
                  let rc := cloneMessageNoReference env m none tr
                  (db, rc.2)

/-- C10: `clone_message_no_reference` converts every upstream failure —
including channel-unavailable errors — into a False return instead of
re-raising: under any upstream that answers every call with an exception or
a flood-wait it returns False; and the live listener's channel-unavailable
branch is dead code — for every environment the handler leaves the database
(banned channels and recovery queue included) unchanged. -/
theorem c10_clone_no_raise (env : Env)
    (herr : ∀ k, env k = UpRes.err ∨ ∃ n, env k = UpRes.flood n) :
    (∀ (m : Msg) (sid : Option Int) (tr : Trace),
      (cloneMessageNoReference env m sid tr).1 = false) ∧
    (∀ (env' : Env) (db : ListenerDb) (eventChatId : Int) (m : Msg)
      (tr : Trace), (onNewMessage env' db eventChatId m tr).1 = db) := by
  constructor
  · intro m sid tr
    simp only [cloneMessageNoReference]
    by_cases hc : is_cloneable m = true
    · rw [hc]
      simp only [Bool.not_true]
      rw [if_neg Bool.false_ne_true]
      have key : ∀ (sv : Int) (tr' : Trace),
          (if sv ≠ 0 then
            (let rf := forwardIdsNoReference env [m.id] tr'
             if rf.1 then (true, rf.2) else copySingleMessage env m rf.2)
          else copySingleMessage env m tr').1 = false := by
        intro sv tr'
        by_cases hz : sv ≠ 0
        · rw [if_pos hz]
          show (if (forwardIdsNoReference env [m.id] tr').1 = true then _
            else copySingleMessage env m
              (forwardIdsNoReference env [m.id] tr').2).1 = false
          rw [forwardIdsNoReference_err env herr [m.id] tr']
          rw [if_neg Bool.false_ne_true]
          exact copySingleMessage_err env herr m _
        · rw [if_neg hz]
          exact copySingleMessage_err env herr m tr'
      exact key _ tr
    · have hc' : is_cloneable m = false := by
        revert hc
        cases is_cloneable m <;> simp
      rw [hc']
      simp only [Bool.not_false]
      rw [if_pos trivial]
  · intro env' db eventChatId m tr
    rw [onNewMessage]
    by_cases h0 : eventChatId = 0
    · rw [if_pos h0]
    · rw [if_neg h0]
      cases getSourceGroupByChatId db eventChatId with
      | none => rfl
      | some sg =>
        show ((if sg.enabled ≠ 1 then (db, tr) else _) : ListenerDb × Trace).1
          = db
        by_cases h1 : sg.enabled ≠ 1
        · rw [if_pos h1]
        · rw [if_neg h1]
          by_cases h2 : (extract_topic_id m).getD m.id = 0
          · rw [if_pos h2]
          · rw [if_neg h2]
            cases getTopic db sg.id ((extract_topic_id m).getD m.id) with
            | none => rfl
            | some t =>
              show ((if t.enabled ≠ 1 then (db, tr) else _) :
                ListenerDb × Trace).1 = db
              by_cases h3 : t.enabled ≠ 1
              · rw [if_pos h3]
              · rw [if_neg h3]
                cases getBinding db sg.id ((extract_topic_id m).getD m.id) with
                | none => rfl
                | some b =>
                  show ((if (!b.active) = true then (db, tr) else _) :
                    ListenerDb × Trace).1 = db
                  by_cases h4 : (!b.active) = true
                  · rw [if_pos h4]
                  · rw [if_neg h4]

theorem c10_clone_no_raise_witness :
    ((cloneMessageNoReference (fun _ => UpRes.err)
        { id := 7, text := "hi" } none {}).1 = false) ∧
    ((onNewMessage (fun _ => UpRes.ok) {} 5 { id := 7, text := "hi" } {}).1
      = ({} : ListenerDb)) :=
  ⟨(c10_clone_no_raise (fun _ => UpRes.err) (fun _ => Or.inl rfl)).1
      { id := 7, text := "hi" } none {},
   (c10_clone_no_raise (fun _ => UpRes.err) (fun _ => Or.inl rfl)).2
      (fun _ => UpRes.ok) {} 5 { id := 7, text := "hi" } {}⟩

end TgClone
